import Mathlib

set_option autoImplicit false

/-!
Verification of the file-classification and data-normalization core of the
RNA-seq report builder (sources: `src/components/StepWizard.tsx` and the App
component).  The TypeScript source is shallowly embedded: strings are Lean
`String`s, JavaScript numbers are rationals (`ℚ`) with `Option` tracking `NaN`
and `undefined`, JavaScript objects built by successive key assignment are
association lists with in-place update, and host-environment numeric
conversions (`parseFloat`, `Number`, `parseInt`, `Math.log10`,
`localeCompare`) are parameters collected in `JsEnv`; the `Math.random`
upload-id stream is a separate parameter of the upload pipeline.
-/

/-! ## String utilities (JS `toLowerCase`, `includes`, `startsWith`, `endsWith`) -/

/-- JS `String.prototype.toLowerCase`, restricted to the per-character case
mapping (exact for the ASCII filenames and headers this program handles). -/
def jsToLower (s : String) : String := String.mk (s.toList.map Char.toLower)

/-- JS `s.endsWith(pat)`. -/
def strEndsWith (s pat : String) : Bool := pat.toList.isSuffixOf s.toList

/-- JS `s.startsWith(pat)` (used here for anchored `/^…/` regex tests). -/
def strStartsWith (s pat : String) : Bool := pat.toList.isPrefixOf s.toList

/-- JS `String.prototype.trim` (strip leading and trailing whitespace). -/
def strTrim (s : String) : String :=
  String.mk (((s.toList.dropWhile Char.isWhitespace).reverse.dropWhile
    Char.isWhitespace).reverse)

/-- Split a character list at every occurrence of `c` (JS `split` with a
one-character separator). -/
def splitOnCharAux (c : Char) : List Char → List Char → List (List Char)
  | [], acc => [acc.reverse]
  | x :: xs, acc =>
    if x = c then acc.reverse :: splitOnCharAux c xs []
    else splitOnCharAux c xs (x :: acc)

/-- JS `s.split(c)` for a one-character separator. -/
def strSplitOnChar (c : Char) (s : String) : List String :=
  (splitOnCharAux c s.toList []).map String.mk

/-- Substring containment on character lists: some tail of `s` starts with
`pat`.  Models JS `String.prototype.includes`. -/
def csContains (s pat : List Char) : Bool :=
  s.tails.any (fun t => pat.isPrefixOf t)

/-- JS `s.includes(pat)`. -/
def strIncludes (s pat : String) : Bool := csContains s.toList pat.toList

/-- `pre` occurs at some position, optionally followed by one character from
`seps`, then immediately followed by `post`.  Models regex fragments of the
shape `pre[seps]?post`, e.g. `log2?fc`, `adj\.?p`, `q_?value`, `p[-_.]?val`,
`gene_?count`. -/
def csContainsSep (s : List Char) (pre : List Char) (seps : List Char) (post : List Char) : Bool :=
  s.tails.any (fun t =>
    pre.isPrefixOf t &&
      (post.isPrefixOf (t.drop pre.length) ||
        (match t.drop pre.length with
          | [] => false
          | c :: rest => seps.contains c && post.isPrefixOf rest)))

/-- Regex `a.*b` tested on `s` (existence of an occurrence of `a` whose end is
followed, anywhere later, by an occurrence of `b`). -/
def csContainsSeq (s a b : List Char) : Bool :=
  (List.range (s.length + 1)).any (fun i =>
    a.isPrefixOf (s.drop i) && csContains (s.drop (i + a.length)) b)

/-- JS truthiness-based `a || b` on strings (`""` is falsy; the embedding
conflates JS `undefined` with `""`, which every use site in this program
treats identically). -/
def jsOrStr (a b : String) : String := if a = "" then b else a

/-! ## `detectComparisonId` (App component, lines 79–83)

```js
const match = filename.match(/(?:Comparison|Comp|C|Contrast|Group|G)\s*[-_]?\s*(\d+)/i);
return match ? `C${match[1]}` : null;
```

The regex engine is embedded for exactly this pattern: start positions are
tried left to right; at a position the six alternatives are tried in source
order; after an alternative, greedy `\s*`, optional `[-_]`, greedy `\s*`, and
a nonempty maximal digit run must follow.  (For this pattern the greedy
choices are forced: whitespace, `-`/`_` and digits are disjoint character
classes, so no quantifier backtracking can occur inside the suffix.) -/

/-- The six alternatives of the group-id regex, lower-cased, in source order. -/
def groupAlts : List (List Char) :=
  ["comparison".toList, "comp".toList, "c".toList, "contrast".toList,
   "group".toList, "g".toList]

/-- Match `\s*[-_]?\s*(\d+)` against `s`; returns the captured digit run. -/
def matchSepDigits (s : List Char) : Option (List Char) :=
  let s1 := s.dropWhile Char.isWhitespace
  let s2 := match s1 with
    | c :: rest => if c = '-' || c = '_' then rest else s1
    | [] => s1
  let s3 := s2.dropWhile Char.isWhitespace
  let ds := s3.takeWhile Char.isDigit
  if ds.isEmpty then none else some ds

/-- Try the full pattern at the start of `s` (alternatives in source order). -/
def matchGroupAt (s : List Char) : Option (List Char) :=
  groupAlts.findSome? (fun a =>
    if a.isPrefixOf s then matchSepDigits (s.drop a.length) else none)

/-- Scan start positions left to right, as `String.prototype.match` does. -/
def scanGroup : List Char → Option (List Char)
  | [] => none
  | c :: cs => (matchGroupAt (c :: cs)).orElse (fun _ => scanGroup cs)

/-- `detectComparisonId` (App, lines 79–83): `"C" + digits` of the first
match of `(?:Comparison|Comp|C|Contrast|Group|G)\s*[-_]?\s*(\d+)` (the `i`
flag is modeled by lower-casing the input; digits are case-invariant). -/
def detectComparisonId (filename : String) : Option String :=
  (scanGroup (jsToLower filename).toList).map (fun ds => "C" ++ String.mk ds)

/-! ## `detectFileType` (App component, lines 86–155) -/

/-- The closed set of file kinds (`FileUploadStatus['type']` plus
`'unknown'`). -/
inductive FileKind where
  | stats | mapping | dge_summary | comparison_dge | comparison_go
  | comparison_kegg | template | gtf_novel | gtf_merged | deliverable_only
  | unknown
  deriving DecidableEq, Repr

/-- Rule 0: binary / opaque extensions (raw data, alignments, references,
images, PDFs). -/
def ruleBinaryExt (lower : String) : Bool :=
  strEndsWith lower ".fastq" || strEndsWith lower ".fq" || strEndsWith lower ".fastq.gz" ||
  strEndsWith lower ".fq.gz" ||
  strEndsWith lower ".bam" || strEndsWith lower ".sam" || strEndsWith lower ".bai" ||
  strEndsWith lower ".fa" || strEndsWith lower ".fasta" || strEndsWith lower ".fna" ||
  strEndsWith lower ".pdf" || strEndsWith lower ".png" || strEndsWith lower ".jpg" ||
  strEndsWith lower ".jpeg" || strEndsWith lower ".svg"

/-- Rule 1: markup extensions. -/
def ruleTemplateExt (lower : String) : Bool :=
  strEndsWith lower ".html" || strEndsWith lower ".htm"

/-- Rule 3 guard: mapping-stats keywords. -/
def ruleMapping (lower : String) : Bool :=
  (strIncludes lower "mapping" || strIncludes lower "align" || strIncludes lower "star" ||
   strIncludes lower "bowtie" || strIncludes lower "hisat") &&
  (strIncludes lower "stat" || strIncludes lower "summary" || strIncludes lower "report" ||
   strIncludes lower "log" || strEndsWith lower ".txt" || strEndsWith lower ".csv" ||
   strEndsWith lower ".xlsx")

/-- Rule 4 guard: global data/QC stats keywords. -/
def ruleGlobalStats (lower : String) : Bool :=
  strIncludes lower "multiqc" ||
  ((strIncludes lower "stat" || strIncludes lower "report" || strIncludes lower "summary") &&
   (strIncludes lower "data" || strIncludes lower "raw" || strIncludes lower "seq" ||
    strIncludes lower "trim" || strIncludes lower "qc" || strIncludes lower "qual"))

/-- Rule 5 guard: DGE-summary keywords. -/
def ruleDgeSummary (lower : String) : Bool :=
  (strIncludes lower "summary" || strIncludes lower "overview" || strIncludes lower "all") &&
  (strIncludes lower "dge" || strIncludes lower "diff" || strIncludes lower "deg")

/-- Rule 6 guard: GO-enrichment keywords. -/
def ruleGo (lower : String) : Bool :=
  (strIncludes lower "go" &&
    (strIncludes lower "enrich" || strIncludes lower "term" || strIncludes lower "result" ||
     strIncludes lower "_go" || strIncludes lower "go_")) ||
  strIncludes lower "gene_ontology"

/-- Rule 7 guard: KEGG keywords. -/
def ruleKegg (lower : String) : Bool :=
  strIncludes lower "kegg" || strIncludes lower "pathway"

/-- Rule 8 guard: per-comparison DGE keywords, with summary/overview excluded. -/
def ruleComparisonDge (lower : String) : Bool :=
  (["dge", "diff", "deg", "result", "comp", "contrast", "vs", "change", "fc",
    "volcano", "ma_plot", "table", "output"].any (fun k => strIncludes lower k)) &&
  !(strIncludes lower "summary") && !(strIncludes lower "overview")

/-- Rule 9 guard: has a comparison id and a tabular extension (the source
tests these extensions without a leading dot). -/
def ruleCompIdTabular (filename lower : String) : Bool :=
  (detectComparisonId filename).isSome &&
  (strEndsWith lower "xlsx" || strEndsWith lower "csv" || strEndsWith lower "txt" ||
   strEndsWith lower "xls")

/-- Rule 10 guard: generic tabular extension fallback. -/
def ruleTabularExt (lower : String) : Bool :=
  strEndsWith lower ".txt" || strEndsWith lower ".csv" || strEndsWith lower ".xlsx" ||
  strEndsWith lower ".xls" || strEndsWith lower ".tsv"

/-- `detectFileType` (App, lines 86–155): ordered rules, first match wins. -/
def detectFileType (filename : String) : FileKind :=
  let lower := jsToLower filename
  if ruleBinaryExt lower then .deliverable_only
  else if ruleTemplateExt lower then .template
  else if strEndsWith lower ".gtf" then
    (if strIncludes lower "novel" || strIncludes lower "isoform" then .gtf_novel
     else .gtf_merged)
  else if ruleMapping lower then .mapping
  else if ruleGlobalStats lower then .stats
  else if ruleDgeSummary lower then .dge_summary
  else if ruleGo lower then .comparison_go
  else if ruleKegg lower then .comparison_kegg
  else if ruleComparisonDge lower then .comparison_dge
  else if ruleCompIdTabular filename lower then .comparison_dge
  else if ruleTabularExt lower then .deliverable_only
  else .unknown

/-! ## Host-environment numeric conversions

JavaScript floating-point conversions (`parseFloat`, `Number`, `parseInt`,
`Math.log10`) and the locale-dependent `localeCompare` collation cannot be
embedded exactly over `ℚ`; they are collected as parameters.  `none` models
JS `NaN` (respectively a `NaN`-producing conversion). -/
structure JsEnv where
  parseFloatJs : String → Option ℚ
  numberJs : String → Option ℚ
  parseIntJs : String → Option Int
  negLog10 : ℚ → ℚ
  localeCmp : String → String → Ordering

/-- JS `parseFloat(n.toFixed(3))`: rounding to three decimals; `toFixed`
rounds to the nearest representable, larger value on ties. -/
def round3 (q : ℚ) : ℚ := ((⌊q * 1000 + 1 / 2⌋ : Int) : ℚ) / 1000

/-! ## JS object model

A JavaScript object built by successive `obj[k] = v` assignments: an
association list whose keys are in first-insertion order; assignment to an
existing key replaces its value in place.  Values are `Option String`:
`none` models a key assigned `undefined` (from indexing past a short row). -/

/-- `obj[k] = v`. -/
def jsObjSet {α : Type} (m : List (String × α)) (k : String) (v : α) : List (String × α) :=
  if m.any (fun p => p.1 = k) then
    m.map (fun p => if p.1 = k then (k, v) else p)
  else m ++ [(k, v)]

/-- `obj[k]`: `some v` when the key is present, `none` when absent. -/
def jsGet {α : Type} (m : List (String × α)) (k : String) : Option α :=
  (m.find? (fun p => p.1 = k)).map (·.2)

/-- A normalized row object: header name → cell (`none` = JS `undefined`). -/
abbrev RowObj := List (String × Option String)

/-- Read a cell through a possibly-unresolved column key, collapsing a
missing key and an `undefined` value (both JS-falsy, and both `NaN` under
`parseFloat`/`parseInt`) to `none`. -/
def getCell (r : RowObj) (k? : Option String) : Option String :=
  match k? with
  | none => none
  | some k => (jsGet r k).join

/-- JS `v || dflt` for a possibly-`undefined` string `v` (`undefined` and
`""` are falsy). -/
def jsValOr (v : Option String) (dflt : String) : String :=
  match v with
  | none => dflt
  | some s => if s = "" then dflt else s

/-! ## `smartSheetToJson` (StepWizard.tsx, lines 152–186) -/

/-- One scanned row joined with spaces and lower-cased contains at least one
keyword (the source counts matching keywords and tests `count >= 1`, which
is exactly `any`). -/
def rowMatchesKeywords (keywords : List String) (row : List String) : Bool :=
  keywords.any (fun k =>
    strIncludes (jsToLower (String.intercalate " " row)) (jsToLower k))

/-- Header-row discovery: first index within the first 20 rows whose joined
cells contain a keyword, else 0. -/
def headerRowIndexOf (grid : List (List String)) (keywords : List String) : Nat :=
  ((grid.take 20).findIdx? (rowMatchesKeywords keywords)).getD 0

/-- The header strings of the selected row, trimmed. -/
def headersOf (grid : List (List String)) (keywords : List String) : List String :=
  (grid.getD (headerRowIndexOf grid keywords) []).map strTrim

/-- `headers.forEach((h, idx) => obj[h] = row[idx])`. -/
def buildRow (headers : List String) (row : List String) : RowObj :=
  headers.enum.foldl (fun obj p => jsObjSet obj p.2 (row.get? p.1)) []

/-- The data rows following the header row; rows of length 0 are skipped. -/
def dataRowsOf (grid : List (List String)) (keywords : List String) : List (List String) :=
  (grid.drop (headerRowIndexOf grid keywords + 1)).filter (fun row => row.length ≠ 0)

/-- `smartSheetToJson` (StepWizard.tsx, lines 152–186). -/
def smartSheetToJson (grid : List (List String)) (keywords : List String) : List RowObj :=
  if grid = [] then []
  else (dataRowsOf grid keywords).map (buildRow (headersOf grid keywords))

/-- `parseTableData` (StepWizard.tsx, lines 189–198): the first sheet's rows
with empty rows (no truthy cell) removed; `none` when there is no sheet. -/
def parseTableData (sheet : Option (List (List String))) : List (List String) :=
  match sheet with
  | none => []
  | some grid => grid.filter (fun row => row.length ≠ 0 && row.any (fun c => c ≠ ""))

/-! ## `parseComparisonDGE` (StepWizard.tsx, lines 275–375) -/

/-- Column pattern `/log2?fc|foldchange|log2_fold_change/i`. -/
def fcPat (k : String) : Bool :=
  let lk := (jsToLower k).toList
  csContainsSep lk "log".toList ['2'] "fc".toList ||
  csContains lk "foldchange".toList || csContains lk "log2_fold_change".toList

/-- Column pattern `/fdr|padj|adj\.?p|q_?value/i`. -/
def fdrPat (k : String) : Bool :=
  let lk := (jsToLower k).toList
  csContains lk "fdr".toList || csContains lk "padj".toList ||
  csContainsSep lk "adj".toList ['.'] "p".toList ||
  csContainsSep lk "q".toList ['_'] "value".toList

/-- Column pattern `/logcpm|log2?cpm|cpm/i`. -/
def cpmPat (k : String) : Bool :=
  let lk := (jsToLower k).toList
  csContains lk "logcpm".toList ||
  csContainsSep lk "log".toList ['2'] "cpm".toList || csContains lk "cpm".toList

/-- Column pattern `/gene|transcript|id|symbol|name|target_id/i`. -/
def idPat (k : String) : Bool :=
  let lk := (jsToLower k).toList
  csContains lk "gene".toList || csContains lk "transcript".toList ||
  csContains lk "id".toList || csContains lk "symbol".toList ||
  csContains lk "name".toList || csContains lk "target_id".toList

/-- `keys.find(k => /log2?fc|.../.test(k)) || keys[1]` (a matching key is a
nonempty string, hence truthy, so `||` falls through exactly on `undefined`). -/
def logFCKeyOf (keys : List String) : Option String :=
  (keys.find? fcPat).orElse (fun _ => keys.get? 1)

/-- `keys.find(k => /fdr|.../.test(k)) || keys[keys.length - 1]`. -/
def fdrKeyOf (keys : List String) : Option String :=
  (keys.find? fdrPat).orElse (fun _ => keys.getLast?)

/-- `keys.find(k => /logcpm|.../.test(k))` (no fallback). -/
def cpmKeyOf (keys : List String) : Option String := keys.find? cpmPat

/-- `keys.find(k => /gene|.../.test(k)) || keys[0]`. -/
def idKeyOf (keys : List String) : Option String :=
  (keys.find? idPat).orElse (fun _ => keys.get? 0)

/-- `ComparisonStats` (types): all counters. -/
structure ComparisonStats where
  total : Nat
  up : Nat
  down : Nat
  sigUp : Nat
  sigDown : Nat
  sigTotal : Nat
  deriving DecidableEq, Repr

def zeroStats : ComparisonStats :=
  { total := 0, up := 0, down := 0, sigUp := 0, sigDown := 0, sigTotal := 0 }

/-- One scatter point before chart formatting (`maX` is `none` when the CPM
cell failed to parse, i.e. JS `NaN`). -/
structure Point where
  x : ℚ
  y : ℚ
  maX : Option ℚ
  sig : Bool
  label : String
  deriving DecidableEq, Repr

/-- The per-row counter increments of the summarizer loop (each field adds an
amount depending only on the row, so the left-to-right `forEach` accumulation
below may be computed tail-first). -/
def bumpStats (st : ComparisonStats) (fc fdr : ℚ) : ComparisonStats :=
  let isSig := fdr < 0.05 && (1 : ℚ) < |fc|
  { total := st.total + 1
    up := if 0 < fc then st.up + 1 else st.up
    down := if 0 < fc then st.down else if fc < 0 then st.down + 1 else st.down
    sigUp := if isSig && 0 < fc then st.sigUp + 1 else st.sigUp
    sigDown := if isSig && !(0 < fc) then st.sigDown + 1 else st.sigDown
    sigTotal := if isSig then st.sigTotal + 1 else st.sigTotal }

/-- Capped `−log10`: `fdr === 0 ? 50 : Math.min(-Math.log10(fdr), 50)`. -/
def negLogFdrCapped (env : JsEnv) (fdr : ℚ) : ℚ :=
  if fdr = 0 then 50 else min (env.negLog10 fdr) 50

/-- The resolved column keys of one DGE table. -/
structure DgeKeys where
  logFCKey : Option String
  fdrKey : Option String
  cpmKey : Option String
  idKey : Option String

def dgeKeysOf (keys : List String) : DgeKeys :=
  { logFCKey := logFCKeyOf keys, fdrKey := fdrKeyOf keys,
    cpmKey := cpmKeyOf keys, idKey := idKeyOf keys }

/-- The scatter point built for one parseable row (StepWizard.tsx, lines
304–333). -/
def mkRowPoint (env : JsEnv) (ks : DgeKeys) (r : RowObj) (fc fdr : ℚ) : Point :=
  let cpm : Option ℚ := match ks.cpmKey with
    | some _ => (getCell r ks.cpmKey).bind env.parseFloatJs
    | none => some 0
  { x := round3 fc
    y := round3 (negLogFdrCapped env fdr)
    maX := if ks.cpmKey.isSome then cpm.map round3 else some (round3 fc)
    sig := fdr < 0.05 && (1 : ℚ) < |fc|
    label := jsValOr (getCell r ks.idKey) "Unknown" }

/-- The summarizer loop (StepWizard.tsx, lines 303–340): statistics plus the
significant / non-significant point lists, in row order.  A row whose
fold-change or FDR parses to `NaN` is skipped entirely.  (Each row's
contribution — counter increments and an appended point — is independent of
the accumulated state, so the `forEach` is computed here by recursion on the
row list.) -/
def dgeProcess (env : JsEnv) (ks : DgeKeys) :
    List RowObj → ComparisonStats × List Point × List Point
  | [] => (zeroStats, [], [])
  | r :: rest =>
    let acc := dgeProcess env ks rest
    match (getCell r ks.logFCKey).bind env.parseFloatJs,
          (getCell r ks.fdrKey).bind env.parseFloatJs with
    | some fc, some fdr =>
      (bumpStats acc.1 fc fdr,
       if fdr < 0.05 && (1 : ℚ) < |fc| then
         (mkRowPoint env ks r fc fdr :: acc.2.1, acc.2.2)
       else (acc.2.1, mkRowPoint env ks r fc fdr :: acc.2.2))
    | _, _ => acc

/-! ## Scatter downsampling (StepWizard.tsx, lines 342–363) -/

/-- The stable descending sort `sigPoints.sort((a,b) => b.y - a.y)`:
`Array.prototype.sort` is stable, and a stable descending sort by `y` equals
sorting index–value pairs by the strict total order "larger `y`, or equal `y`
and smaller index", realized below as a total preorder on pairs. -/
def sigKeyRel (a b : Nat × Point) : Prop :=
  b.2.y < a.2.y ∨ (a.2.y = b.2.y ∧ a.1 ≤ b.1)

instance : DecidableRel sigKeyRel := fun a b => by
  unfold sigKeyRel; infer_instance

instance : IsTotal (Nat × Point) sigKeyRel where
  total a b := by
    rcases lt_trichotomy a.2.y b.2.y with h | h | h
    · exact Or.inr (Or.inl h)
    · rcases Nat.le_total a.1 b.1 with h' | h'
      · exact Or.inl (Or.inr ⟨h, h'⟩)
      · exact Or.inr (Or.inr ⟨h.symm, h'⟩)
    · exact Or.inl (Or.inl h)

instance : IsTrans (Nat × Point) sigKeyRel where
  trans a b c hab hbc := by
    rcases hab with hab | ⟨hab, hab'⟩ <;> rcases hbc with hbc | ⟨hbc, hbc'⟩
    · exact Or.inl (hbc.trans hab)
    · exact Or.inl (hbc ▸ hab)
    · exact Or.inl (hab ▸ hbc)
    · exact Or.inr ⟨hab.trans hbc, hab'.trans hbc'⟩

/-- The sorted significant points, paired with their input positions. -/
def sortSigDesc (sig : List Point) : List (Nat × Point) :=
  List.insertionSort sigKeyRel sig.enum

/-- The sampling loop `for (i = 0; i < n; i += step) push(pts[i])`, without
the size cap: elements at indices `0, step, 2·step, …`. -/
def strideTake {α : Type} (stepN : Nat) : List α → List α
  | [] => []
  | p :: rest => p :: strideTake stepN (rest.drop (stepN - 1))
  termination_by l => l.length
  decreasing_by simp; omega

/-- The significant points kept by the downsampler: all of them when at most
3000, else the first 3000 of the stable descending sort. -/
def keptSig (sigPoints : List Point) : List Point :=
  if sigPoints.length ≤ 3000 then sigPoints
  else ((sortSigDesc sigPoints).take 3000).map Prod.snd

/-- The downsampler (StepWizard.tsx, lines 342–363).  `slotsLeft` is a `Nat`
subtraction: the kept significant points never exceed 3000, so it matches the
JS integer value.  The loop's `if (finalPoints.length >= MAX_POINTS) break`
admits exactly `slotsLeft` pushes, i.e. `take slotsLeft` of the strided
sequence. -/
def downsample (sigPoints nonSigPoints : List Point) : List Point :=
  let finalPoints := keptSig sigPoints
  let slotsLeft := 5000 - finalPoints.length
  if 0 < slotsLeft ∧ 0 < nonSigPoints.length then
    finalPoints ++
      (strideTake (max 1 (nonSigPoints.length / slotsLeft)) nonSigPoints).take slotsLeft
  else finalPoints

/-- A chart point as emitted for the volcano plot. -/
structure VolcanoPoint where
  x : ℚ
  y : ℚ
  sig : Bool
  label : String
  deriving DecidableEq, Repr

/-- A chart point as emitted for the MA plot (`x` is `none` when the CPM cell
was `NaN`). -/
structure MaPoint where
  x : Option ℚ
  y : ℚ
  sig : Bool
  label : String
  deriving DecidableEq, Repr

/-- The result record of `parseComparisonDGE`. -/
structure DgeResult where
  sigCount : Nat
  stats : ComparisonStats
  maPoints : List MaPoint
  volcanoPoints : List VolcanoPoint
  deriving DecidableEq, Repr

def emptyDgeResult : DgeResult :=
  { sigCount := 0, stats := zeroStats, maPoints := [], volcanoPoints := [] }

/-- The keyword set passed to `smartSheetToJson` by `parseComparisonDGE`. -/
def dgeKeywords : List String := ["logfc", "fdr", "pvalue", "padj", "foldchange"]

/-- The main path of `parseComparisonDGE` once a nonempty normalized row list
was obtained. -/
def dgeCompute (env : JsEnv) (jsonData : List RowObj) : DgeResult :=
  let keys := (jsonData.headD []).map (·.1)
  let ks := dgeKeysOf keys
  let res := dgeProcess env ks jsonData
  let finalPoints := downsample res.2.1 res.2.2
  { sigCount := res.1.sigTotal
    stats := res.1
    volcanoPoints := finalPoints.map (fun p =>
      { x := p.x, y := p.y, sig := p.sig, label := p.label })
    maPoints := finalPoints.map (fun p =>
      { x := p.maX, y := p.x, sig := p.sig, label := p.label }) }

/-- `parseComparisonDGE` (StepWizard.tsx, lines 275–375); `none` models a
workbook without a first sheet. -/
def parseComparisonDGE (env : JsEnv) (sheet : Option (List (List String))) : DgeResult :=
  match sheet with
  | none => emptyDgeResult
  | some grid =>
    let jsonData := smartSheetToJson grid dgeKeywords
    if jsonData = [] then emptyDgeResult else dgeCompute env jsonData

/-! ## `parseEnrichment` (StepWizard.tsx, lines 378–442) -/

/-- `EnrichmentTerm` (types). -/
structure EnrichmentTerm where
  term : String
  count : Int
  pAdjust : ℚ
  category : Option String
  deriving DecidableEq, Repr

/-- The ranked term-column patterns, by priority: `description`, `term`,
`pathway`, `id`, then any key (the `keys[0]` fallback). -/
def termPat : Nat → String → Bool
  | 0, k => strIncludes (jsToLower k) "description"
  | 1, k => strIncludes (jsToLower k) "term"
  | 2, k => strIncludes (jsToLower k) "pathway"
  | 3, k => strIncludes (jsToLower k) "id"
  | _, _ => true

/-- The ranked count-column patterns, by priority: `/^count/i`,
`/significant/i`, `/^n$/i`, `/gene_?count/i`. -/
def countPat : Nat → String → Bool
  | 0, k => strStartsWith (jsToLower k) "count"
  | 1, k => strIncludes (jsToLower k) "significant"
  | 2, k => jsToLower k = "n"
  | 3, k => csContainsSep (jsToLower k).toList "gene".toList ['_'] "count".toList
  | _, _ => false

/-- Term-column resolution (StepWizard.tsx, lines 397–401). -/
def termKeyOf (keys : List String) : Option String :=
  ((((keys.find? (termPat 0)).orElse
    (fun _ => keys.find? (termPat 1))).orElse
    (fun _ => keys.find? (termPat 2))).orElse
    (fun _ => keys.find? (termPat 3))).orElse
    (fun _ => keys.get? 0)

/-- Count-column resolution (StepWizard.tsx, lines 404–407). -/
def countKeyOf (keys : List String) : Option String :=
  (((keys.find? (countPat 0)).orElse
    (fun _ => keys.find? (countPat 1))).orElse
    (fun _ => keys.find? (countPat 2))).orElse
    (fun _ => keys.find? (countPat 3))

/-- Category-column pattern `/ontology|category|namespace|type/i`. -/
def catPat (k : String) : Bool :=
  strIncludes (jsToLower k) "ontology" || strIncludes (jsToLower k) "category" ||
  strIncludes (jsToLower k) "namespace" || strIncludes (jsToLower k) "type"

/-- P-value pattern `/p[-_.]?val|p[-_.]?adj|fdr|q[-_.]?val/i`. -/
def pValPat (k : String) : Bool :=
  let lk := (jsToLower k).toList
  csContainsSep lk "p".toList ['-', '_', '.'] "val".toList ||
  csContainsSep lk "p".toList ['-', '_', '.'] "adj".toList ||
  csContains lk "fdr".toList ||
  csContainsSep lk "q".toList ['-', '_', '.'] "val".toList

/-- The keyword set passed to `smartSheetToJson` by `parseEnrichment`. -/
def enrichmentKeywords : List String :=
  ["term", "description", "pathway", "id", "count", "significant", "n",
   "pvalue", "p-value", "p.adjust", "fdr", "qvalue", "q-value"]

/-- One output record of `parseEnrichment` (lines 416–441). -/
def enrichmentTermOfRow (env : JsEnv) (termKey countKey catKey pKey : Option String)
    (r : RowObj) : EnrichmentTerm :=
  { term := jsValOr (getCell r termKey) "Unknown"
    count := match countKey with
      | none => 0
      | some k => match (jsGet r k).join with
        | none => 0
        | some v => (env.parseIntJs v).getD 0
    pAdjust := match pKey with
      | none => 0
      | some k => match (jsGet r k).join with
        | none => 0
        | some v => (env.parseFloatJs v).getD 0
    category := catKey.map (fun k => match (jsGet r k).join with
      | some v => v
      | none => "undefined") }

/-- `parseEnrichment` (StepWizard.tsx, lines 378–442).  `String(undefined)`
is the string `"undefined"`, reproduced in the category field. -/
def parseEnrichment (env : JsEnv) (sheet : Option (List (List String))) :
    List EnrichmentTerm :=
  match sheet with
  | none => []
  | some grid =>
    let jsonData := smartSheetToJson grid enrichmentKeywords
    if jsonData = [] then []
    else
      let keys := (jsonData.headD []).map (·.1)
      (jsonData.take 50).map
        (enrichmentTermOfRow env (termKeyOf keys) (countKeyOf keys)
          (keys.find? catPat) (keys.find? pValPat))

/-! ## `parseDGESummary` and the summary-row field resolution
(StepWizard.tsx lines 201–210; App lines 223–282) -/

/-- The keyword set passed to `smartSheetToJson` by `parseDGESummary`. -/
def summaryKeywords : List String :=
  ["comparison", "total", "up", "down", "sig", "regulated"]

/-- `parseDGESummary` (StepWizard.tsx, lines 201–210). -/
def parseDGESummary (sheet : Option (List (List String))) : List RowObj :=
  match sheet with
  | none => []
  | some grid => smartSheetToJson grid summaryKeywords

/-- Regex `a.*b` tested case-insensitively on a header. -/
def seqPat (a b : String) (k : String) : Bool :=
  csContainsSeq (jsToLower k).toList a.toList b.toList

/-- One row of the DGE summary table after field resolution (numeric fields
are JS numbers, `none` = `NaN`; `desc` may be JS `undefined`). -/
structure SummaryRow where
  comp : String
  desc : Option String
  total : Option ℚ
  downTotal : Option ℚ
  upTotal : Option ℚ
  sigDown : Option ℚ
  sigUp : Option ℚ
  sig : Option ℚ
  deriving DecidableEq, Repr

/-- `Number(r[key] || 0)`: an unresolved key or `undefined` or `""` cell is
the number 0; otherwise the host `Number` conversion. -/
def numField (env : JsEnv) (r : RowObj) (k? : Option String) : Option ℚ :=
  match getCell r k? with
  | none => some 0
  | some v => if v = "" then some 0 else env.numberJs v

/-- The per-row field resolution of the `dge_summary` branch (App, lines
225–253). -/
def summaryOfRaw (env : JsEnv) (r : RowObj) : SummaryRow :=
  let keys := r.map (·.1)
  let compKey := (keys.find? (fun k => strIncludes (jsToLower k) "comp")).orElse
    (fun _ => keys.get? 0)
  let descKey := keys.find? (fun k => strIncludes (jsToLower k) "desc")
  let totalKey := (keys.find? (fun k => seqPat "total" "deg" k || seqPat "total" "gene" k)).orElse
    (fun _ => keys.find? (fun k => jsToLower k = "total"))
  let sigDownKey := (keys.find? (seqPat "sig" "down")).orElse
    (fun _ => keys.find? (seqPat "down" "sig"))
  let sigUpKey := (keys.find? (seqPat "sig" "up")).orElse
    (fun _ => keys.find? (seqPat "up" "sig"))
  let sigTotalKey := ((keys.find? (seqPat "total" "sig")).orElse
    (fun _ => keys.find? (fun k => strStartsWith (jsToLower k) "sig"))).orElse
    (fun _ => keys.find? (seqPat "#" "sig"))
  let downTotalKey0 := keys.find? (fun k => strStartsWith (jsToLower k) "down")
  let downTotalKey := if downTotalKey0 = sigDownKey then none else downTotalKey0
  let upTotalKey0 := keys.find? (fun k => strStartsWith (jsToLower k) "up")
  let upTotalKey := if upTotalKey0 = sigUpKey then none else upTotalKey0
  { comp := jsValOr (getCell r compKey) "Unknown"
    desc := match descKey with
      | none => some "Test vs Control"
      | some k => (jsGet r k).join
    total := numField env r totalKey
    downTotal := numField env r downTotalKey
    upTotal := numField env r upTotalKey
    sigDown := numField env r sigDownKey
    sigUp := numField env r sigUpKey
    sig := numField env r sigTotalKey }

/-- `String(row.comp).match(/\d+/)?.[0]`: the first maximal digit run. -/
def firstDigitRun (s : String) : Option String :=
  let t := s.toList.dropWhile (fun c => !c.isDigit)
  if t.isEmpty then none else some (String.mk (t.takeWhile Char.isDigit))

/-! ## `parseGTF` (StepWizard.tsx, lines 213–272) -/

/-- Per-transcript length statistics (`NaN`-able numbers as `Option ℚ`). -/
structure TranscriptStat where
  name : String
  count : Nat
  totalLen : Option ℚ
  meanLen : Option ℚ
  maxLen : Option ℚ
  deriving DecidableEq, Repr

/-- `NaN`-absorbing addition of JS numbers. -/
def optAdd (a b : Option ℚ) : Option ℚ :=
  match a, b with
  | some x, some y => some (x + y)
  | _, _ => none

/-- `NaN`-absorbing `Math.max` of two JS numbers. -/
def optMax (a b : Option ℚ) : Option ℚ :=
  match a, b with
  | some x, some y => some (max x y)
  | _, _ => none

/-- Match `transcript_id\s+"([^"]+)";` anchored at the start of `s`. -/
def matchTidAt (s : List Char) : Option (List Char) :=
  let lit := "transcript_id".toList
  if lit.isPrefixOf s then
    let rest := s.drop lit.length
    if (rest.takeWhile Char.isWhitespace).isEmpty then none
    else
      match rest.dropWhile Char.isWhitespace with
      | '"' :: r2 =>
        let tid := r2.takeWhile (fun c => c ≠ '"')
        if tid.isEmpty then none
        else
          match r2.drop tid.length with
          | '"' :: ';' :: _ => some tid
          | _ => none
      | _ => none
  else none

/-- First match of the transcript-id pattern, scanning left to right. -/
def scanTid : List Char → Option (List Char)
  | [] => none
  | c :: cs => (matchTidAt (c :: cs)).orElse (fun _ => scanTid cs)

/-- JS truthiness of a number (`0` and `NaN` are falsy), for the
`if (!transcriptLengths[id]) transcriptLengths[id] = 0` reset. -/
def numTruthy (v : Option ℚ) : Bool :=
  match v with
  | some q => q ≠ 0
  | none => false

/-- One line of the GTF accumulation loop over the insertion-ordered
per-transcript map. -/
def gtfLineStep (env : JsEnv) (m : List (String × Option ℚ)) (line : String) :
    List (String × Option ℚ) :=
  if line = "" || strStartsWith line "#" then m
  else
    let parts := strSplitOnChar '\t' line
    if parts.length < 9 then m
    else if parts.getD 2 "" ≠ "exon" then m
    else
      match scanTid (parts.getD 8 "").toList with
      | none => m
      | some tid =>
        let tidS := String.mk tid
        let len : Option ℚ := match env.parseIntJs (parts.getD 3 ""),
                                    env.parseIntJs (parts.getD 4 "") with
          | some s, some e => some (((e - s + 1 : Int) : ℚ))
          | _, _ => none
        let cur : Option ℚ := match jsGet m tidS with
          | none => some 0
          | some v => if numTruthy v then v else some 0
        jsObjSet m tidS (optAdd cur len)

/-- `parseGTF` (StepWizard.tsx, lines 213–272).  `reduce((a,b) => a+b)` over a
nonempty list equals the `NaN`-absorbing fold from `0`; `Math.max(...xs)`
over a nonempty list is folded from its head. -/
def parseGTF (env : JsEnv) (name text : String) : TranscriptStat :=
  let m := (strSplitOnChar '\n' text).foldl (gtfLineStep env) []
  let lengths := m.map (·.2)
  match lengths with
  | [] => { name := name, count := 0, totalLen := some 0, meanLen := some 0, maxLen := some 0 }
  | h :: t =>
    let count := lengths.length
    let totalLen := t.foldl optAdd h
    let maxLen := t.foldl optMax h
    let meanLen := totalLen.map (fun x => ((⌊x / (count : ℚ) + 1 / 2⌋ : Int) : ℚ))
    { name := name, count := count, totalLen := totalLen, meanLen := meanLen, maxLen := maxLen }

/-! ## The upload pipeline `handleSmartUpload` (App, lines 167–387)

Files are processed sequentially (the `for … of` loop awaits each file); all
`setProcessedData`/`setStats`/`setUploadStatus` calls use functional updates,
so the session state threads through the loop.  A file is a named buffer: its
first worksheet decoded to a raw grid (`none` when the workbook has no
sheet — the XLSX decoding itself is the external library boundary) and its
raw text (used by the GTF and template branches). -/

/-- `ComparisonData` (types). -/
structure ComparisonData where
  id : String
  name : String
  description : String
  sigCount : Option ℚ
  stats : Option ComparisonStats
  maPoints : List MaPoint
  volcanoPoints : List VolcanoPoint
  goTerms : List EnrichmentTerm
  keggPathways : List EnrichmentTerm
  deriving DecidableEq, Repr

/-- `ProcessedData` (types).  The `deliverablesTree` field is omitted: it is
written only by the out-of-scope tree editor, never by file processing. -/
structure ProcessedData where
  dataStatsTable : List (List String)
  mappingStatsTable : List (List String)
  transcriptStats : List TranscriptStat
  dgeSummaryTable : List SummaryRow
  comparisons : List (String × ComparisonData)
  deriving DecidableEq, Repr

/-- The two `ProjectStats` fields written by file processing (the others are
manual-entry only). -/
structure ProjStats where
  mergedTranscripts : Nat
  novelIsoforms : Nat
  deriving DecidableEq, Repr

inductive StatusTag where
  | pending | success | error
  deriving DecidableEq, Repr

/-- `FileUploadStatus` (types). -/
structure FileStatus where
  id : String
  name : String
  kind : FileKind
  assignedTo : Option String
  status : StatusTag
  message : Option String
  deriving DecidableEq, Repr

/-- An uploaded file as seen by the pipeline. -/
structure UploadFile where
  name : String
  sheet : Option (List (List String))
  text : String

/-- The session state touched by `handleSmartUpload`. -/
structure AppState where
  data : ProcessedData
  stats : ProjStats
  customTemplate : Option String
  uploadStatus : List FileStatus
  deriving Repr

def initialProcessedData : ProcessedData :=
  { dataStatsTable := [], mappingStatsTable := [], transcriptStats := [],
    dgeSummaryTable := [], comparisons := [] }

/-- `INITIAL_STATS` (the two fields the pipeline writes). -/
def initialProjStats : ProjStats :=
  { mergedTranscripts := 653846, novelIsoforms := 3096 }

def initialAppState : AppState :=
  { data := initialProcessedData, stats := initialProjStats,
    customTemplate := none, uploadStatus := [] }

/-- `nextComparisons` update for one summary row (App, lines 257–280). -/
def mergeSummaryRow (row : SummaryRow) (m : List (String × ComparisonData)) :
    List (String × ComparisonData) :=
  match firstDigitRun row.comp with
  | none => m
  | some ds =>
    let targetId := "C" ++ ds
    match jsGet m targetId with
    | some existing =>
      jsObjSet m targetId { existing with description := jsValOr row.desc existing.description }
    | none =>
      jsObjSet m targetId
        { id := targetId, name := "Comparison " ++ ds,
          description := jsValOr row.desc "Test vs Control",
          sigCount := row.sig, stats := none, maPoints := [], volcanoPoints := [],
          goTerms := [], keggPathways := [] }

/-- Unreachable fallback value for `prev.comparisons[compId]` reads that the
control flow has already guaranteed to exist. -/
def defaultComparison : ComparisonData :=
  { id := "", name := "", description := "", sigCount := some 0, stats := none,
    maPoints := [], volcanoPoints := [], goTerms := [], keggPathways := [] }

/-- First `setProcessedData` of the `comparison_*` branch (App, lines
289–313): create the comparison entry if absent. -/
def ensureComparison (pd : ProcessedData) (compId : String) : ProcessedData :=
  let compNum := String.mk (compId.toList.filter Char.isDigit)
  let defaultName := if compNum ≠ "" then "Comparison " ++ compNum else compId
  let defaultDesc :=
    if pd.dgeSummaryTable.length ≠ 0 then
      match pd.dgeSummaryTable.find? (fun row =>
          strIncludes row.comp compNum ||
          strIncludes (jsToLower row.comp) (jsToLower compId)) with
      | some mrow => jsValOr mrow.desc "Test vs Control"
      | none => "Test vs Control"
    else "Test vs Control"
  let existing := (jsGet pd.comparisons compId).getD
    { id := compId, name := defaultName, description := defaultDesc, sigCount := some 0,
      stats := none, maPoints := [], volcanoPoints := [], goTerms := [], keggPathways := [] }
  { pd with comparisons := jsObjSet pd.comparisons compId existing }

/-- The `comparison_dge` update (App, lines 315–355).  The summary-table merge
`{...old, ...entry}` replaces every field because the entry carries all of
them; the final sort models the stable
`sort((a,b) => a.comp.localeCompare(b.comp, undefined, numeric))`. -/
def applyDgeFile (env : JsEnv) (pd : ProcessedData) (compId : String)
    (dgeData : DgeResult) : ProcessedData :=
  let updatedComp :=
    { (jsGet pd.comparisons compId).getD defaultComparison with
      sigCount := some ((dgeData.sigCount : ℚ)),
      stats := some dgeData.stats,
      maPoints := dgeData.maPoints,
      volcanoPoints := dgeData.volcanoPoints }
  let entry : SummaryRow :=
    { comp := compId, desc := some updatedComp.description,
      total := some ((dgeData.stats.total : ℚ)),
      downTotal := some ((dgeData.stats.down : ℚ)),
      upTotal := some ((dgeData.stats.up : ℚ)),
      sigDown := some ((dgeData.stats.sigDown : ℚ)),
      sigUp := some ((dgeData.stats.sigUp : ℚ)),
      sig := some ((dgeData.stats.sigTotal : ℚ)) }
  let tbl := match pd.dgeSummaryTable.findIdx? (fun row => row.comp = compId) with
    | some i => pd.dgeSummaryTable.set i entry
    | none => pd.dgeSummaryTable ++ [entry]
  let sorted := List.insertionSort
    (fun a b => env.localeCmp a.comp b.comp ≠ Ordering.gt) tbl
  { pd with
    dgeSummaryTable := sorted
    comparisons := jsObjSet pd.comparisons compId updatedComp }

/-- The `comparison_go` update (App, lines 357–366). -/
def setGoTerms (pd : ProcessedData) (compId : String) (terms : List EnrichmentTerm) :
    ProcessedData :=
  let c := { (jsGet pd.comparisons compId).getD defaultComparison with goTerms := terms }
  { pd with comparisons := jsObjSet pd.comparisons compId c }

/-- The `comparison_kegg` update (App, lines 367–376). -/
def setKeggTerms (pd : ProcessedData) (compId : String) (terms : List EnrichmentTerm) :
    ProcessedData :=
  let c := { (jsGet pd.comparisons compId).getD defaultComparison with keggPathways := terms }
  { pd with comparisons := jsObjSet pd.comparisons compId c }

def isComparisonKind (k : FileKind) : Bool :=
  k = .comparison_dge || k = .comparison_go || k = .comparison_kegg

/-- `type.replace('comparison_', '').toUpperCase()`. -/
def kindShortUpper : FileKind → String
  | .comparison_dge => "DGE"
  | .comparison_go => "GO"
  | .comparison_kegg => "KEGG"
  | _ => ""

/-- The `MissingGroupIdentifier` message (App, line 199; the quoted example
ids of the JS literal are elided). -/
def missingIdMessage (k : FileKind) : String :=
  "Detected " ++ kindShortUpper k ++
    " file but missing Comparison ID (e.g. C1, Comp1) in filename."

/-- `setUploadStatus(prev => prev.map(s => s.id === fileId ? f(s) : s))`. -/
def markById (sts : List FileStatus) (fid : String) (f : FileStatus → FileStatus) :
    List FileStatus :=
  sts.map (fun s => if s.id = fid then f s else s)

/-- The `try` body past the unknown / deliverable-only early continues:
either the updated state or the thrown per-file error message.  Both throws
occur before any state update, so an error leaves the state unchanged. -/
def tryProcess (env : JsEnv) (st : AppState) (file : UploadFile)
    (kind : FileKind) (compId : Option String) : Except String AppState :=
  if isComparisonKind kind && compId.isNone then
    .error (missingIdMessage kind)
  else
    match kind, compId with
    | .stats, _ =>
      .ok { st with data := { st.data with dataStatsTable := parseTableData file.sheet } }
    | .mapping, _ =>
      .ok { st with data := { st.data with mappingStatsTable := parseTableData file.sheet } }
    | .gtf_novel, _ =>
      let t := parseGTF env file.name file.text
      .ok { st with
            stats := { st.stats with novelIsoforms := t.count }
            data := { st.data with transcriptStats := st.data.transcriptStats ++ [t] } }
    | .gtf_merged, _ =>
      let t := parseGTF env file.name file.text
      .ok { st with
            stats := { st.stats with mergedTranscripts := t.count }
            data := { st.data with transcriptStats := st.data.transcriptStats ++ [t] } }
    | .dge_summary, _ =>
      let summary := (parseDGESummary file.sheet).map (summaryOfRaw env)
      let comps := summary.foldl (fun m row => mergeSummaryRow row m) st.data.comparisons
      .ok { st with
            data := { st.data with dgeSummaryTable := summary, comparisons := comps } }
    | .template, _ => .ok { st with customTemplate := some file.text }
    | .comparison_dge, some cid =>
      let pd1 := ensureComparison st.data cid
      .ok { st with data := applyDgeFile env pd1 cid (parseComparisonDGE env file.sheet) }
    | .comparison_go, some cid =>
      let pd1 := ensureComparison st.data cid
      .ok { st with data := setGoTerms pd1 cid (parseEnrichment env file.sheet) }
    | .comparison_kegg, some cid =>
      let pd1 := ensureComparison st.data cid
      .ok { st with data := setKeggTerms pd1 cid (parseEnrichment env file.sheet) }
    | _, _ => .error "File processing logic error."

/-- One iteration of the upload loop (App, lines 171–386). -/
def processFile (env : JsEnv) (rnd : Nat → String) (st : AppState) (idx : Nat)
    (file : UploadFile) : AppState :=
  let kind := detectFileType file.name
  let compId := detectComparisonId file.name
  let fileId := rnd idx
  let newStatus : FileStatus :=
    { id := fileId, name := file.name, kind := kind, assignedTo := compId,
      status := .pending, message := none }
  let st1 := { st with uploadStatus := st.uploadStatus ++ [newStatus] }
  if kind = .unknown then
    let upd := fun (s : FileStatus) =>
      { s with
        status := StatusTag.success
        kind := FileKind.deliverable_only
        message := some "Type unknown, added to tree only" }
    { st1 with uploadStatus := markById st1.uploadStatus fileId upd }
  else if kind = .deliverable_only then
    let upd := fun (s : FileStatus) => { s with status := StatusTag.success }
    { st1 with uploadStatus := markById st1.uploadStatus fileId upd }
  else
    match tryProcess env st1 file kind compId with
    | .ok st2 =>
      let upd := fun (s : FileStatus) => { s with status := StatusTag.success }
      { st2 with uploadStatus := markById st2.uploadStatus fileId upd }
    | .error msg =>
      let upd := fun (s : FileStatus) =>
        { s with status := StatusTag.error, message := some msg }
      { st1 with uploadStatus := markById st1.uploadStatus fileId upd }

/-- `handleSmartUpload` over a batch, from the initial session state; `rnd`
is the stream of `Math.random()`-derived per-file upload ids. -/
def processBatch (env : JsEnv) (rnd : Nat → String) (files : List UploadFile) : AppState :=
  files.enum.foldl (fun st p => processFile env rnd st p.1 p.2) initialAppState

/-! # Claims -/

/-- Helper: `getD` through a valid index is `getElem`. -/
theorem list_getD_of_lt {α : Type _} {l : List α} {i : Nat} (d : α) (h : i < l.length) :
    l.getD i d = l[i] := by
  simp [List.getD_eq_getElem?_getD, List.getElem?_eq_getElem h]

/-- C6: on every non-empty raw grid, the header locator selects the smallest
row index among the first 20 rows whose lower-cased joined cells contain at
least one expected keyword as a substring; it selects row 0 when no row in
that window qualifies; in particular, when row 0 matches no keyword and row 1
contains one, the selected index is 1. -/
theorem c6_header_locator (grid : List (List String)) (keywords : List String)
    (_hne : grid ≠ []) :
    (∀ i, i < 20 → i < grid.length →
      (∀ j, j < i → rowMatchesKeywords keywords (grid.getD j []) = false) →
      rowMatchesKeywords keywords (grid.getD i []) = true →
      headerRowIndexOf grid keywords = i)
    ∧ ((∀ i, i < 20 → i < grid.length →
        rowMatchesKeywords keywords (grid.getD i []) = false) →
      headerRowIndexOf grid keywords = 0)
    ∧ (2 ≤ grid.length →
      rowMatchesKeywords keywords (grid.getD 0 []) = false →
      rowMatchesKeywords keywords (grid.getD 1 []) = true →
      headerRowIndexOf grid keywords = 1) := by
  have key : ∀ i, i < 20 → i < grid.length →
      (∀ j, j < i → rowMatchesKeywords keywords (grid.getD j []) = false) →
      rowMatchesKeywords keywords (grid.getD i []) = true →
      headerRowIndexOf grid keywords = i := by
    intro i h20 hlen hprev hmatch
    have hi : i < (grid.take 20).length := by
      simp [List.length_take]; omega
    have : (grid.take 20).findIdx? (rowMatchesKeywords keywords) = some i := by
      rw [List.findIdx?_eq_some_iff_getElem]
      refine ⟨hi, ?_, ?_⟩
      · have : (grid.take 20)[i] = grid[i] := List.getElem_take grid
        rw [this, ← list_getD_of_lt [] hlen]
        exact hmatch
      · intro j hji
        have hjlen : j < grid.length := by omega
        have hj2 : j < (grid.take 20).length := by
          rw [List.length_take]
          omega
        have e : (grid.take 20)[j] = grid[j] := List.getElem_take grid
        have hp := hprev j hji
        rw [list_getD_of_lt [] hjlen] at hp
        simp [e, hp]
    simp [headerRowIndexOf, this]
  refine ⟨key, ?_, ?_⟩
  · intro hall
    have : (grid.take 20).findIdx? (rowMatchesKeywords keywords) = none := by
      rw [List.findIdx?_eq_none_iff]
      intro x hx
      rw [List.mem_take_iff_getElem] at hx
      obtain ⟨i, hi, rfl⟩ := hx
      have hi20 : i < 20 := by omega
      have hilen : i < grid.length := by omega
      have := hall i hi20 hilen
      rwa [list_getD_of_lt [] hilen] at this
    simp [headerRowIndexOf, this]
  · intro hlen2 h0 h1
    exact key 1 (by omega) (by omega)
      (by intro j hj; interval_cases j; exact h0) h1

/-- Witness for C6 at a concrete grid: row 0 is a title, row 1 holds the
FDR keyword, so the selected header row index is 1. -/
theorem c6_header_locator_witness :
    headerRowIndexOf [["My title"], ["FDR", "logFC"]] ["fdr"] = 1 :=
  (c6_header_locator [["My title"], ["FDR", "logFC"]] ["fdr"] (by decide)).2.2
    (by decide) (by decide) (by decide)

theorem opt_some_orElse {α : Type _} (a : α) (f : Unit → Option α) : (some a).orElse f = some a := rfl

theorem opt_none_orElse {α : Type _} (f : Unit → Option α) : (none : Option α).orElse f = f () := rfl

/-- The count-column resolution as the specification words it — exact
`"count"` as the top-priority pattern — written only to exhibit the
divergence from the source, whose top pattern is the anchored prefix test
`/^count/i`. -/
def claimCountPat : Nat → String → Bool
  | 0, k => jsToLower k = "count"
  | 1, k => strIncludes (jsToLower k) "significant"
  | 2, k => jsToLower k = "n"
  | 3, k => csContainsSep (jsToLower k).toList "gene".toList ['_'] "count".toList
  | _, _ => false

/-- Count-column resolution following the claim's wording. -/
def claimCountKeyOf (keys : List String) : Option String :=
  (((keys.find? (claimCountPat 0)).orElse
    (fun _ => keys.find? (claimCountPat 1))).orElse
    (fun _ => keys.find? (claimCountPat 2))).orElse
    (fun _ => keys.find? (claimCountPat 3))

/-- C4 counterexample: on headers `["Counts", "Significant"]` the source
resolves the count column to `"Counts"` (prefix match `/^count/i`), while the
claimed priority — exact `"count"` first, then `"significant"` — would
resolve `"Significant"`. -/
theorem c4_counterexample :
    countKeyOf ["Counts", "Significant"] = some "Counts" ∧
    claimCountKeyOf ["Counts", "Significant"] = some "Significant" ∧
    countKeyOf ["Counts", "Significant"] ≠ claimCountKeyOf ["Counts", "Significant"] := by
  refine ⟨by decide, by decide, by decide⟩

/-- C4 (amended): the term field is resolved by the ranked priority
description > term > pathway > id > first column, and the count field by the
ranked priority "header starting with count" > "containing significant" >
"exactly n" > "matching gene_count"; at the highest priority level with any
matching header, the first such header is chosen, and when no count pattern
matches at all the count column is unresolved. -/
theorem c4_column_priority (keys : List String) :
    (∀ i, i < 5 →
      (∀ j, j < i → ∀ k, k ∈ keys → termPat j k = false) →
      (∃ k, k ∈ keys ∧ termPat i k = true) →
      termKeyOf keys = keys.find? (termPat i))
    ∧ (∀ i, i < 4 →
      (∀ j, j < i → ∀ k, k ∈ keys → countPat j k = false) →
      (∃ k, k ∈ keys ∧ countPat i k = true) →
      countKeyOf keys = keys.find? (countPat i))
    ∧ ((∀ i, i < 4 → ∀ k, k ∈ keys → countPat i k = false) →
      countKeyOf keys = none) := by
  have fnone : ∀ (p : String → Bool), (∀ k, k ∈ keys → p k = false) →
      keys.find? p = none := by
    intro p h
    rw [List.find?_eq_none]
    intro x hx
    simp [h x hx]
  have fsome : ∀ (p : String → Bool), (∃ k, k ∈ keys ∧ p k = true) →
      ∃ v, keys.find? p = some v := by
    intro p hp
    obtain ⟨k, hk, hpk⟩ := hp
    rcases h : keys.find? p with _ | v
    · rw [List.find?_eq_none] at h
      exact absurd hpk (by simp [h k hk])
    · exact ⟨v, rfl⟩
  refine ⟨?_, ?_, ?_⟩
  · intro i hi5 hlow hex
    obtain ⟨v, hv⟩ := fsome _ hex
    interval_cases i
    · simp [termKeyOf, hv, opt_some_orElse]
    · simp [termKeyOf, fnone _ (hlow 0 (by omega)), opt_none_orElse, hv, opt_some_orElse]
    · simp [termKeyOf, fnone _ (hlow 0 (by omega)), fnone _ (hlow 1 (by omega)),
        opt_none_orElse, hv, opt_some_orElse]
    · simp [termKeyOf, fnone _ (hlow 0 (by omega)), fnone _ (hlow 1 (by omega)),
        fnone _ (hlow 2 (by omega)), opt_none_orElse, hv, opt_some_orElse]
    · obtain ⟨k, hk, _⟩ := hex
      have e0 := fnone _ (hlow 0 (by omega))
      have e1 := fnone _ (hlow 1 (by omega))
      have e2 := fnone _ (hlow 2 (by omega))
      have e3 := fnone _ (hlow 3 (by omega))
      cases keys with
      | nil => cases hk
      | cons a as =>
        rw [List.find?_cons_of_pos _ (by simp [termPat])]
        simp [termKeyOf, e0, e1, e2, e3, opt_none_orElse]
  · intro i hi4 hlow hex
    obtain ⟨v, hv⟩ := fsome _ hex
    interval_cases i
    · simp [countKeyOf, hv, opt_some_orElse]
    · simp [countKeyOf, fnone _ (hlow 0 (by omega)), opt_none_orElse, hv, opt_some_orElse]
    · simp [countKeyOf, fnone _ (hlow 0 (by omega)), fnone _ (hlow 1 (by omega)),
        opt_none_orElse, hv, opt_some_orElse]
    · simp [countKeyOf, fnone _ (hlow 0 (by omega)), fnone _ (hlow 1 (by omega)),
        fnone _ (hlow 2 (by omega)), opt_none_orElse, hv, opt_some_orElse]
  · intro hall
    simp [countKeyOf, fnone _ (hall 0 (by omega)), fnone _ (hall 1 (by omega)),
      fnone _ (hall 2 (by omega)), fnone _ (hall 3 (by omega)), opt_none_orElse]

/-- Witness for C4 at concrete headers: with `["Pathway", "N"]` the term
column resolves at the pathway priority level and the count column at the
exact-n level. -/
theorem c4_column_priority_witness :
    termKeyOf ["Pathway", "N"] = ["Pathway", "N"].find? (termPat 2) ∧
    countKeyOf ["Pathway", "N"] = ["Pathway", "N"].find? (countPat 2) :=
  ⟨(c4_column_priority ["Pathway", "N"]).1 2 (by omega) (by decide) (by decide),
   (c4_column_priority ["Pathway", "N"]).2.1 2 (by omega) (by decide) (by decide)⟩

/-- C10: when no observed header matches a fold-change pattern, the second
column is used as the fold-change field; when none matches an FDR pattern,
the last column is used; and a table with a nonempty normalized row list is
never rejected — `parseComparisonDGE` always proceeds to the full
computation. -/
theorem c10_fallback_columns (keys : List String) (env : JsEnv)
    (grid : List (List String)) :
    ((∀ k, k ∈ keys → fcPat k = false) → logFCKeyOf keys = keys.get? 1)
    ∧ ((∀ k, k ∈ keys → fdrPat k = false) → fdrKeyOf keys = keys.getLast?)
    ∧ (smartSheetToJson grid dgeKeywords ≠ [] →
      parseComparisonDGE env (some grid) =
        dgeCompute env (smartSheetToJson grid dgeKeywords)) := by
  refine ⟨?_, ?_, ?_⟩
  · intro h
    have : keys.find? fcPat = none := by
      rw [List.find?_eq_none]; intro x hx; simp [h x hx]
    simp [logFCKeyOf, this, opt_none_orElse, List.get?_eq_getElem?]
  · intro h
    have : keys.find? fdrPat = none := by
      rw [List.find?_eq_none]; intro x hx; simp [h x hx]
    simp [fdrKeyOf, this, opt_none_orElse]
  · intro h
    simp [parseComparisonDGE, h]

/-- A concrete host environment for witness instantiations: every numeric
conversion yields `NaN`, collation is the `Ordering` of `compare`, and the
id stream is the decimal index. -/
def nullJsEnv : JsEnv :=
  { parseFloatJs := fun _ => none, numberJs := fun _ => none,
    parseIntJs := fun _ => none, negLog10 := fun _ => 0,
    localeCmp := fun a b => compare a b }

/-- Witness for C10 at a concrete table: headers `gene`/`colB`/`colC` match
no fold-change and no FDR pattern, so the second and last columns are chosen,
and the one-row FDR grid is processed rather than rejected. -/
theorem c10_fallback_columns_witness :
    logFCKeyOf ["gene", "colB", "colC"] = some "colB" ∧
    fdrKeyOf ["gene", "colB", "colC"] = some "colC" ∧
    parseComparisonDGE nullJsEnv (some [["FDR"], ["0.5"]]) =
      dgeCompute nullJsEnv (smartSheetToJson [["FDR"], ["0.5"]] dgeKeywords) :=
  ⟨by rw [(c10_fallback_columns ["gene", "colB", "colC"] nullJsEnv []).1 (by decide)]; decide,
   by rw [(c10_fallback_columns ["gene", "colB", "colC"] nullJsEnv []).2.1 (by decide)]; decide,
   (c10_fallback_columns [] nullJsEnv [["FDR"], ["0.5"]]).2.2 (by decide)⟩

/-- C3 counterexample: `"all_dge.xyz"` escapes every earlier classification
rule and contains neither `summary` nor `overview`, yet the source classifies
it `dge_summary` — its summary-keyword set also contains `all`. -/
theorem c3_counterexample :
    detectFileType "all_dge.xyz" = FileKind.dge_summary ∧
    ruleBinaryExt (jsToLower "all_dge.xyz") = false ∧
    ruleTemplateExt (jsToLower "all_dge.xyz") = false ∧
    strEndsWith (jsToLower "all_dge.xyz") ".gtf" = false ∧
    ruleMapping (jsToLower "all_dge.xyz") = false ∧
    ruleGlobalStats (jsToLower "all_dge.xyz") = false ∧
    (strIncludes (jsToLower "all_dge.xyz") "summary" ||
      strIncludes (jsToLower "all_dge.xyz") "overview") = false := by
  refine ⟨by decide, by decide, by decide, by decide, by decide, by decide, by decide⟩

/-- C3 (amended): for every filename not classified by the earlier rules, the
classifier returns `dge_summary` exactly when the filename contains one of
the keywords `summary`, `overview`, or `all`, combined with a
differential-expression keyword (`dge`, `diff`, or `deg`). -/
theorem c3_dge_summary_rule (name : String)
    (h0 : ruleBinaryExt (jsToLower name) = false)
    (h1 : ruleTemplateExt (jsToLower name) = false)
    (h2 : strEndsWith (jsToLower name) ".gtf" = false)
    (h3 : ruleMapping (jsToLower name) = false)
    (h4 : ruleGlobalStats (jsToLower name) = false) :
    detectFileType name = FileKind.dge_summary ↔
      ((strIncludes (jsToLower name) "summary" || strIncludes (jsToLower name) "overview" ||
          strIncludes (jsToLower name) "all")
        && (strIncludes (jsToLower name) "dge" || strIncludes (jsToLower name) "diff" ||
          strIncludes (jsToLower name) "deg")) = true := by
  have rdef : ((strIncludes (jsToLower name) "summary" ||
      strIncludes (jsToLower name) "overview" || strIncludes (jsToLower name) "all")
      && (strIncludes (jsToLower name) "dge" || strIncludes (jsToLower name) "diff" ||
      strIncludes (jsToLower name) "deg")) = ruleDgeSummary (jsToLower name) := rfl
  rw [rdef]
  unfold detectFileType
  simp only [h0, h1, h2, h3, h4, Bool.false_eq_true, if_false]
  by_cases hd : ruleDgeSummary (jsToLower name)
  · simp [hd]
  · simp only [hd, Bool.false_eq_true, if_false]
    constructor
    · intro h
      exfalso
      split at h <;> try exact (by cases h)
      split at h <;> try exact (by cases h)
      split at h <;> try exact (by cases h)
      split at h <;> try exact (by cases h)
      split at h <;> exact (by cases h)
    · intro h
      exact absurd h (by simp [hd])

/-- Witness for C3 at a concrete filename: `"dge_overview.xlsx"` escapes the
earlier rules and is classified `dge_summary`. -/
theorem c3_dge_summary_rule_witness :
    detectFileType "dge_overview.xlsx" = FileKind.dge_summary :=
  (c3_dge_summary_rule "dge_overview.xlsx" (by decide) (by decide) (by decide)
    (by decide) (by decide)).mpr (by decide)

/-! ### C5: group-id extraction -/

/-- The suffix `[-_]?(\d+)` of the pattern exactly as the claim words it —
without the source's `\s*` whitespace skips; used only to exhibit the
divergence. -/
def claimMatchSepDigits (s : List Char) : Option (List Char) :=
  let s2 := match s with
    | c :: rest => if c = '-' || c = '_' then rest else s
    | [] => s
  let ds := s2.takeWhile Char.isDigit
  if ds.isEmpty then none else some ds

/-- The claim's pattern tried at the start of `s`. -/
def claimMatchGroupAt (s : List Char) : Option (List Char) :=
  groupAlts.findSome? (fun a =>
    if a.isPrefixOf s then claimMatchSepDigits (s.drop a.length) else none)

/-- First match of the claim's pattern, scanning left to right. -/
def claimScanGroup : List Char → Option (List Char)
  | [] => none
  | c :: cs => (claimMatchGroupAt (c :: cs)).orElse (fun _ => claimScanGroup cs)

/-- The group id as the claim describes it: `"C" + digits` of the first
substring matching `(Comparison|Comp|C|Contrast|Group|G)[-_]?digits`. -/
def claimGroupId (filename : String) : Option String :=
  (claimScanGroup (jsToLower filename).toList).map (fun ds => "C" ++ String.mk ds)

/-- `s` contains, at some position, a match of
`(Comparison|Comp|C|Contrast|Group|G)[-_]?7` (as in the claim's particular
case). -/
def claimContains7 (filename : String) : Bool :=
  let s := (jsToLower filename).toList
  (List.range s.length).any (fun p =>
    groupAlts.any (fun a =>
      a.isPrefixOf (s.drop p) &&
        (match s.drop (p + a.length) with
          | c :: rest =>
            if c = '-' || c = '_' then rest.headD ' ' = '7' else c = '7'
          | [] => false)))

/-- C5 counterexample.  Two independent failures at concrete inputs:
`"C1_Comp7"` contains a match of the `…7` pattern (namely `Comp7`) yet the
source resolves `"C1"`, not `"C7"` (the first match wins); and
`"Comp 1.xlsx"` contains no substring matching the claimed pattern (which has
no `\s*`) yet the source, whose regex skips whitespace, resolves `"C1"`
rather than leaving the id absent. -/
theorem c5_counterexample :
    claimContains7 "C1_Comp7" = true ∧
    detectComparisonId "C1_Comp7" = some "C1" ∧
    some "C1" ≠ some "C7" ∧
    claimGroupId "Comp 1.xlsx" = none ∧
    detectComparisonId "Comp 1.xlsx" = some "C1" := by
  refine ⟨by decide, by decide, by decide, by decide, by decide⟩

theorem findSome?_range_eq_some {β : Type _} (f : Nat → Option β) (n p : Nat) (v : β)
    (hp : p < n) (hv : f p = some v) (hmin : ∀ q, q < p → f q = none) :
    (List.range n).findSome? f = some v := by
  induction n generalizing f p with
  | zero => omega
  | succ n ih =>
    rw [List.range_succ_eq_map, List.findSome?_cons]
    cases p with
    | zero => simp [hv]
    | succ p =>
      rw [hmin 0 (by omega)]
      rw [List.findSome?_map]
      exact ih (f ∘ Nat.succ) p (by omega) hv (fun q hq => hmin (q + 1) (by omega))

/-- The scan of start positions is the first position whose anchored match
succeeds. -/
theorem scanGroup_eq (s : List Char) :
    scanGroup s = (List.range s.length).findSome? (fun p => matchGroupAt (s.drop p)) := by
  induction s with
  | nil => simp [scanGroup]
  | cons c cs ih =>
    rw [scanGroup, show (c :: cs).length = cs.length + 1 from rfl,
      List.range_succ_eq_map, List.findSome?_cons]
    cases h : matchGroupAt ((c :: cs).drop 0) with
    | some v =>
      rw [List.drop_zero] at h
      simp [h, Option.orElse]
    | none =>
      rw [List.drop_zero] at h
      simp only [h, Option.orElse, List.findSome?_map]
      exact ih

/-- C5 (amended): the group id is `"C" + digits` of the first substring
matching `(Comparison|Comp|C|Contrast|Group|G)\s*[-_]?\s*digits`
(case-insensitive; alternatives tried in source order at each position), and
is absent when no position matches; in particular, when the first such match
captures the digit run `7`, the id resolves to `"C7"`. -/
theorem c5_group_id (name : String) :
    ((∀ p, matchGroupAt (((jsToLower name).toList).drop p) = none) →
      detectComparisonId name = none)
    ∧ (∀ p ds, matchGroupAt (((jsToLower name).toList).drop p) = some ds →
      (∀ q, q < p → matchGroupAt (((jsToLower name).toList).drop q) = none) →
      detectComparisonId name = some ("C" ++ String.mk ds))
    ∧ (∀ p, matchGroupAt (((jsToLower name).toList).drop p) = some ['7'] →
      (∀ q, q < p → matchGroupAt (((jsToLower name).toList).drop q) = none) →
      detectComparisonId name = some "C7") := by
  have hnil : matchGroupAt ([] : List Char) = none := by decide
  have main : ∀ p ds, matchGroupAt (((jsToLower name).toList).drop p) = some ds →
      (∀ q, q < p → matchGroupAt (((jsToLower name).toList).drop q) = none) →
      detectComparisonId name = some ("C" ++ String.mk ds) := by
    intro p ds hv hmin
    have hp : p < (jsToLower name).toList.length := by
      by_contra hle
      rw [List.drop_eq_nil_of_le (by omega), hnil] at hv
      cases hv
    have h2 := findSome?_range_eq_some
      (fun q => matchGroupAt (((jsToLower name).toList).drop q))
      ((jsToLower name).toList.length) p ds hp hv hmin
    unfold detectComparisonId
    rw [scanGroup_eq, h2]
    rfl
  refine ⟨?_, main, ?_⟩
  · intro h
    have : (List.range (jsToLower name).toList.length).findSome?
        (fun p => matchGroupAt (((jsToLower name).toList).drop p)) = none := by
      rw [List.findSome?_eq_none_iff]
      intro x _
      exact h x
    unfold detectComparisonId
    rw [scanGroup_eq, this]
    rfl
  · intro p hv hmin
    exact main p ['7'] hv hmin

/-- Witness for C5 at a concrete filename: the first match in
`"Comparison 7.xlsx"` is at position 0 and captures `7`, so the id is `C7`. -/
theorem c5_group_id_witness : detectComparisonId "Comparison 7.xlsx" = some "C7" :=
  (c5_group_id "Comparison 7.xlsx").2.2 0 (by decide)
    (fun q hq => absurd hq (Nat.not_lt_zero q))

/-! ### C9: duplicate header names -/

theorem jsGet_jsObjSet_self {α : Type} (m : List (String × α)) (k : String) (v : α) :
    jsGet (jsObjSet m k v) k = some v := by
  unfold jsObjSet jsGet
  by_cases hk : m.any (fun p => p.1 = k)
  · rw [if_pos hk]
    induction m with
    | nil => simp at hk
    | cons q m ih =>
      by_cases hq : q.1 = k
      · rw [List.map_cons, if_pos hq, List.find?_cons_of_pos _ (by simp)]
        rfl
      · rw [List.map_cons, if_neg hq, List.find?_cons_of_neg _ (by simpa using hq)]
        simp only [List.any_cons, Bool.or_eq_true, decide_eq_true_eq] at hk
        exact ih (by simpa [hq] using hk)
  · rw [if_neg hk, List.find?_append]
    have h1 : m.find? (fun p => p.1 = k) = none := by
      rw [List.find?_eq_none]
      intro x hx
      simp only [List.any_eq_true] at hk
      push_neg at hk
      simpa using hk x hx
    rw [h1]
    simp

theorem jsGet_jsObjSet_ne {α : Type} (m : List (String × α)) (k k' : String) (v : α)
    (hne : k' ≠ k) : jsGet (jsObjSet m k v) k' = jsGet m k' := by
  have main : ∀ (m : List (String × α)),
      List.find? (fun p => p.1 = k') (m.map (fun p => if p.1 = k then (k, v) else p)) =
        List.find? (fun p => p.1 = k') m := by
    intro m
    induction m with
    | nil => rfl
    | cons q m ih =>
      by_cases hq : q.1 = k
      · rw [List.map_cons, if_pos hq,
          List.find?_cons_of_neg _ (by simpa using hne.symm),
          List.find?_cons_of_neg _ (by
            simp only [decide_eq_true_eq]
            intro e
            exact hne (by rw [← e]; exact hq))]
        exact ih
      · rw [List.map_cons, if_neg hq]
        by_cases hq' : q.1 = k'
        · rw [List.find?_cons_of_pos _ (by simpa using hq'),
            List.find?_cons_of_pos _ (by simpa using hq')]
        · rw [List.find?_cons_of_neg _ (by simpa using hq'),
            List.find?_cons_of_neg _ (by simpa using hq')]
          exact ih
  unfold jsObjSet jsGet
  by_cases hk : m.any (fun p => p.1 = k)
  · rw [if_pos hk, main]
  · rw [if_neg hk, List.find?_append]
    have h1 : List.find? (fun p => p.1 = k') [(k, v)] = none := by
      simp only [List.find?_singleton]
      rw [if_neg (by simpa using fun e => hne e.symm)]
    rw [h1]
    simp

/-- The value stored by the row-object fold for a header name is the value of
its rightmost occurrence. -/
theorem foldRow_jsGet (row : List String) (h : String) :
    ∀ (l : List (Nat × String)) (acc : RowObj),
      jsGet (l.foldl (fun obj p => jsObjSet obj p.2 (row.get? p.1)) acc) h =
        match (l.filter (fun p => p.2 = h)).getLast? with
        | some q => some (row.get? q.1)
        | none => jsGet acc h := by
  intro l
  induction l with
  | nil => intro acc; simp
  | cons q l ih =>
    intro acc
    by_cases hq : q.2 = h
    · rw [List.foldl_cons, ih]
      have hf : (q :: l).filter (fun p => p.2 = h) = q :: l.filter (fun p => p.2 = h) := by
        simp [List.filter_cons, hq]
      rw [hf]
      cases hfl : l.filter (fun p => p.2 = h) with
      | nil =>
        show jsGet (jsObjSet acc q.2 (row.get? q.1)) h = some (row.get? q.1)
        rw [← hq]
        exact jsGet_jsObjSet_self acc q.2 (row.get? q.1)
      | cons b t =>
        rw [List.getLast?_cons_cons]
        rcases hsome : (b :: t).getLast? with _ | x
        · exact absurd hsome (by simp)
        · rfl
    · rw [List.foldl_cons, ih]
      have hf : (q :: l).filter (fun p => p.2 = h) = l.filter (fun p => p.2 = h) := by
        simp [List.filter_cons, hq]
      rw [hf]
      cases hfl : l.filter (fun p => p.2 = h) with
      | nil =>
        show jsGet (jsObjSet acc q.2 (row.get? q.1)) h = jsGet acc h
        exact jsGet_jsObjSet_ne acc q.2 h (row.get? q.1) (fun e => hq e.symm)
      | cons b t =>
        rcases hsome : (b :: t).getLast? with _ | x
        · exact absurd hsome (by simp)
        · rfl

/-- A name absent from a header list yields no filtered enum entry. -/
theorem filter_enumFrom_eq_nil (h : String) :
    ∀ (hs : List String) (n : Nat), (∀ j, hs.get? j ≠ some h) →
      (hs.enumFrom n).filter (fun p => p.2 = h) = [] := by
  intro hs
  induction hs with
  | nil => intro n _; rfl
  | cons a hs ih =>
    intro n hno
    have ha : a ≠ h := by
      intro e
      exact hno 0 (by simp [e])
    rw [List.enumFrom_cons, List.filter_cons, if_neg (by simpa using ha)]
    exact ih (n + 1) (fun j => hno (j + 1))

/-- The filtered enum of a header list ends at the last occurrence of the
name. -/
theorem filter_enumFrom_getLast (h : String) :
    ∀ (hs : List String) (n i : Nat), hs.get? i = some h →
      (∀ j, i < j → hs.get? j ≠ some h) →
      ((hs.enumFrom n).filter (fun p => p.2 = h)).getLast? = some (n + i, h) := by
  intro hs
  induction hs with
  | nil => intro n i hi _; simp at hi
  | cons a hs ih =>
    intro n i hi hlast
    rw [List.enumFrom_cons, List.filter_cons]
    cases i with
    | zero =>
      have ha : a = h := by simpa using hi
      have hrest : (hs.enumFrom (n + 1)).filter (fun p => p.2 = h) = [] :=
        filter_enumFrom_eq_nil h hs (n + 1) (fun j => hlast (j + 1) (by omega))
      rw [if_pos (by simpa using ha), hrest]
      simp [ha]
    | succ i =>
      have hi' : hs.get? i = some h := by simpa using hi
      have hlast' : ∀ j, i < j → hs.get? j ≠ some h := by
        intro j hj
        have := hlast (j + 1) (by omega)
        simpa using this
      have hrec := ih (n + 1) i hi' hlast'
      have harith : n + 1 + i = n + (i + 1) := by omega
      by_cases hq : a = h
      · rw [if_pos (by simpa using hq)]
        rcases hfl : (hs.enumFrom (n + 1)).filter (fun p => p.2 = h) with _ | ⟨b, t⟩
        · rw [hfl] at hrec; cases hrec
        · rw [hfl] at hrec
          rw [hfl, List.getLast?_cons_cons, hrec, harith]
      · rw [if_neg (by simpa using hq), hrec, harith]

/-- The keys of a JS object stay duplicate-free under assignment. -/
theorem jsObjSet_keys_nodup {α : Type} (m : List (String × α)) (k : String) (v : α)
    (hm : (m.map (fun p => p.1)).Nodup) :
    ((jsObjSet m k v).map (fun p => p.1)).Nodup := by
  unfold jsObjSet
  by_cases hk : m.any (fun p => p.1 = k)
  · rw [if_pos hk]
    have : (m.map (fun p => if p.1 = k then (k, v) else p)).map (fun p => p.1) =
        m.map (fun p => p.1) := by
      rw [List.map_map]
      apply List.map_congr_left
      intro p _
      by_cases hp : p.1 = k
      · simp [hp]
      · simp [hp]
    rw [this]
    exact hm
  · rw [if_neg hk]
    rw [List.map_append]
    rw [List.nodup_append]
    refine ⟨hm, by simp, ?_⟩
    intro x hx
    simp only [List.map_cons, List.map_nil, List.mem_singleton]
    intro e
    rw [e] at hx
    simp only [List.mem_map] at hx
    obtain ⟨p, hp, hpk⟩ := hx
    simp only [List.any_eq_true] at hk
    push_neg at hk
    exact absurd (by simpa using hpk) (by simpa using hk p hp)

/-- The row objects produced by the fold have duplicate-free key lists. -/
theorem foldRow_keys_nodup (row : List String) :
    ∀ (l : List (Nat × String)) (acc : RowObj),
      ((acc.map (fun p => p.1)).Nodup) →
      (((l.foldl (fun obj p => jsObjSet obj p.2 (row.get? p.1)) acc).map
        (fun p => p.1)).Nodup) := by
  intro l
  induction l with
  | nil => intro acc hacc; exact hacc
  | cons q l ih =>
    intro acc hacc
    rw [List.foldl_cons]
    exact ih _ (jsObjSet_keys_nodup acc q.2 (row.get? q.1) hacc)

/-- C9: when the selected header row contains the same trimmed name in two or
more columns, every normalized row object binds that name to the value of the
rightmost such column (index `i`, the last occurrence), and carries no
duplicate key, so the values under the earlier columns appear in no row
object. -/
theorem c9_duplicate_headers (grid : List (List String)) (kws : List String)
    (h : String) (i : Nat)
    (_hdup : 2 ≤ (headersOf grid kws).count h)
    (hi : (headersOf grid kws).get? i = some h)
    (hlast : ∀ j, i < j → (headersOf grid kws).get? j ≠ some h) :
    ∀ obj, obj ∈ smartSheetToJson grid kws →
      ∃ row, row ∈ dataRowsOf grid kws ∧ obj = buildRow (headersOf grid kws) row ∧
        jsGet obj h = some (row.get? i) ∧ (obj.map (fun p => p.1)).Nodup := by
  intro obj hobj
  unfold smartSheetToJson at hobj
  by_cases hg : grid = []
  · rw [if_pos hg] at hobj
    cases hobj
  · rw [if_neg hg] at hobj
    obtain ⟨row, hrow, rfl⟩ := List.mem_map.mp hobj
    refine ⟨row, hrow, rfl, ?_, ?_⟩
    · unfold buildRow
      rw [foldRow_jsGet]
      have hgl := filter_enumFrom_getLast h (headersOf grid kws) 0 i hi hlast
      rw [show (headersOf grid kws).enum = (headersOf grid kws).enumFrom 0 from rfl, hgl]
      simp
    · exact foldRow_keys_nodup row _ [] (by simp)

/-- Witness for C9 at a concrete grid with header row `a, b, a`: the row
object binds `a` to the value under the rightmost `a` column and holds a
single entry per name. -/
theorem c9_duplicate_headers_witness :
    ∃ row, row ∈ dataRowsOf [["a", "b", "a"], ["1", "2", "3"]] ["a"] ∧
      ([("a", some "3"), ("b", some "2")] : RowObj) =
        buildRow (headersOf [["a", "b", "a"], ["1", "2", "3"]] ["a"]) row ∧
      jsGet ([("a", some "3"), ("b", some "2")] : RowObj) "a" = some (row.get? 2) ∧
      ((([("a", some "3"), ("b", some "2")] : RowObj)).map (fun p => p.1)).Nodup :=
  c9_duplicate_headers [["a", "b", "a"], ["1", "2", "3"]] ["a"] "a" 2
    (by decide) (by decide)
    (by
      intro j hj
      have e : headersOf [["a", "b", "a"], ["1", "2", "3"]] ["a"] = ["a", "b", "a"] := by
        decide
      rw [e]
      rcases j with _ | _ | _ | j
      · omega
      · omega
      · omega
      · simp)
    [("a", some "3"), ("b", some "2")] (by decide)

/-! ### C2: summarizer invariants -/

/-- One parseable row preserves the counter invariants. -/
theorem bumpStats_inv (st : ComparisonStats) (fc fdr : ℚ)
    (h1 : st.sigUp + st.sigDown = st.sigTotal)
    (h2 : st.up + st.down ≤ st.total) :
    (bumpStats st fc fdr).sigUp + (bumpStats st fc fdr).sigDown =
      (bumpStats st fc fdr).sigTotal ∧
    (bumpStats st fc fdr).up + (bumpStats st fc fdr).down ≤
      (bumpStats st fc fdr).total := by
  simp only [bumpStats, Bool.and_eq_true, decide_eq_true_eq]
  split_ifs <;> first | omega | (exfalso; simp_all)

/-- C2: over every row list, the summarizer's counters satisfy
`sigUp + sigDown = sigTotal` and `up + down ≤ total`; a row whose fold-change
or FDR fails to parse contributes to no counter and to no scatter-point list
(deleting it leaves the entire result unchanged); and the statistics returned
by `parseComparisonDGE` satisfy the same invariants on every sheet. -/
theorem c2_summarizer_invariants (env : JsEnv) (ks : DgeKeys) (rows : List RowObj)
    (sheet : Option (List (List String))) :
    ((dgeProcess env ks rows).1.sigUp + (dgeProcess env ks rows).1.sigDown =
      (dgeProcess env ks rows).1.sigTotal)
    ∧ ((dgeProcess env ks rows).1.up + (dgeProcess env ks rows).1.down ≤
      (dgeProcess env ks rows).1.total)
    ∧ (∀ l1 r l2, rows = l1 ++ r :: l2 →
      ((getCell r ks.logFCKey).bind env.parseFloatJs = none ∨
        (getCell r ks.fdrKey).bind env.parseFloatJs = none) →
      dgeProcess env ks rows = dgeProcess env ks (l1 ++ l2))
    ∧ ((parseComparisonDGE env sheet).stats.sigUp +
        (parseComparisonDGE env sheet).stats.sigDown =
      (parseComparisonDGE env sheet).stats.sigTotal)
    ∧ ((parseComparisonDGE env sheet).stats.up + (parseComparisonDGE env sheet).stats.down ≤
      (parseComparisonDGE env sheet).stats.total) := by
  have main : ∀ (ks' : DgeKeys) (rs : List RowObj),
      (dgeProcess env ks' rs).1.sigUp + (dgeProcess env ks' rs).1.sigDown =
        (dgeProcess env ks' rs).1.sigTotal ∧
      (dgeProcess env ks' rs).1.up + (dgeProcess env ks' rs).1.down ≤
        (dgeProcess env ks' rs).1.total := by
    intro ks' rs
    induction rs with
    | nil => exact ⟨rfl, le_refl 0⟩
    | cons r rest ih =>
      show ((dgeProcess env ks' (r :: rest))).1.sigUp + _ = _ ∧ _
      rw [dgeProcess]
      rcases hfc : (getCell r ks'.logFCKey).bind env.parseFloatJs with _ | fc
      · simpa [hfc] using ih
      · rcases hfdr : (getCell r ks'.fdrKey).bind env.parseFloatJs with _ | fdr
        · simpa [hfc, hfdr] using ih
        · simpa [hfc, hfdr] using
            bumpStats_inv (dgeProcess env ks' rest).1 fc fdr ih.1 ih.2
  have del : ∀ (l1 : List RowObj) (r : RowObj) (l2 : List RowObj),
      ((getCell r ks.logFCKey).bind env.parseFloatJs = none ∨
        (getCell r ks.fdrKey).bind env.parseFloatJs = none) →
      dgeProcess env ks (l1 ++ r :: l2) = dgeProcess env ks (l1 ++ l2) := by
    intro l1 r l2 hbad
    induction l1 with
    | nil =>
      simp only [List.nil_append]
      rw [dgeProcess]
      rcases hbad with hb | hb
      · simp [hb]
      · rcases hfc : (getCell r ks.logFCKey).bind env.parseFloatJs with _ | fc
        · simp
        · simp [hb]
    | cons x l1 ih =>
      simp only [List.cons_append]
      rw [dgeProcess, dgeProcess, ih]
  refine ⟨(main ks rows).1, (main ks rows).2,
    fun l1 r l2 he hb => he ▸ del l1 r l2 hb, ?_, ?_⟩
  all_goals {
    rcases sheet with _ | grid
    · simp [parseComparisonDGE, zeroStats, emptyDgeResult]
    · by_cases hj : smartSheetToJson grid dgeKeywords = []
      · simp [parseComparisonDGE, hj, zeroStats, emptyDgeResult]
      · have e : (parseComparisonDGE env (some grid)).stats =
            (dgeProcess env
              (dgeKeysOf (((smartSheetToJson grid dgeKeywords).headD []).map (fun p => p.1)))
              (smartSheetToJson grid dgeKeywords)).1 := by
          simp [parseComparisonDGE, hj, dgeCompute]
        rw [e]
        first
          | exact (main _ (smartSheetToJson grid dgeKeywords)).1
          | exact (main _ (smartSheetToJson grid dgeKeywords)).2
  }

/-- Witness for C2 at a concrete row list: deleting the row whose fold-change
cell fails to parse leaves the summarizer result unchanged. -/
theorem c2_summarizer_invariants_witness :
    dgeProcess nullJsEnv (dgeKeysOf ["logFC", "FDR"])
        ([] ++ [("logFC", some "x"), ("FDR", some "1")] :: []) =
      dgeProcess nullJsEnv (dgeKeysOf ["logFC", "FDR"]) ([] ++ []) :=
  (c2_summarizer_invariants nullJsEnv (dgeKeysOf ["logFC", "FDR"])
      [[("logFC", some "x"), ("FDR", some "1")]] none).2.2.1
    [] [("logFC", some "x"), ("FDR", some "1")] [] rfl (Or.inl (by decide))

/-! ### C1: scatter downsampling -/

theorem filterMap_range_extend {α : Type} (f : Nat → Option α) (m₁ m₂ : Nat)
    (h : m₁ ≤ m₂) (hnone : ∀ k, m₁ ≤ k → f k = none) :
    (List.range m₂).filterMap f = (List.range m₁).filterMap f := by
  have e : m₂ = m₁ + (m₂ - m₁) := by omega
  rw [e, List.range_add, List.filterMap_append]
  have e2 : ((List.range (m₂ - m₁)).map (m₁ + ·)).filterMap f = [] := by
    rw [List.filterMap_eq_nil_iff]
    intro a ha
    simp only [List.mem_map, List.mem_range] at ha
    obtain ⟨k, _, rfl⟩ := ha
    exact hnone _ (by omega)
  rw [e2, List.append_nil]

/-- The sampling loop visits exactly the indices `0, s, 2·s, …`: the source's
"uniform stride sampling". -/
theorem strideTake_eq {α : Type} (s : Nat) (hs : 1 ≤ s) (l : List α) :
    strideTake s l = (List.range l.length).filterMap (fun k => l.get? (k * s)) := by
  induction l using strideTake.induct s with
  | case1 => simp [strideTake]
  | case2 p rest ih =>
    rw [strideTake, ih]
    have hg : ∀ k : Nat, (rest.drop (s - 1)).get? (k * s) = (p :: rest).get? ((k + 1) * s) := by
      intro k
      rw [List.get?_eq_getElem?, List.get?_eq_getElem?, List.getElem?_drop]
      have e : (k + 1) * s = (s - 1 + k * s) + 1 := by
        have : s - 1 + 1 = s := by omega
        calc (k + 1) * s = k * s + s := by ring
        _ = k * s + (s - 1 + 1) := by rw [this]
        _ = (s - 1 + k * s) + 1 := by ring
      rw [e, List.getElem?_cons_succ]
    have hlen : (rest.drop (s - 1)).length = rest.length - (s - 1) := by
      simp
    rw [hlen]
    have hstep : ((List.range (rest.length - (s - 1))).filterMap
        (fun k => (rest.drop (s - 1)).get? (k * s))) =
        ((List.range (rest.length - (s - 1))).filterMap
          (fun k => (p :: rest).get? ((k + 1) * s))) := by
      apply List.filterMap_congr
      intro k _
      exact hg k
    rw [hstep]
    have hext : ((List.range rest.length).filterMap
        (fun k => (p :: rest).get? ((k + 1) * s))) =
        ((List.range (rest.length - (s - 1))).filterMap
          (fun k => (p :: rest).get? ((k + 1) * s))) := by
      apply filterMap_range_extend _ _ _ (by omega)
      intro k hk
      rw [List.get?_eq_getElem?]
      apply List.getElem?_eq_none
      show rest.length + 1 ≤ (k + 1) * s
      by_cases hn : rest.length + 1 ≤ s
      · calc rest.length + 1 ≤ s := hn
        _ = 1 * s := by ring
        _ ≤ (k + 1) * s := Nat.mul_le_mul_right s (by omega)
      · obtain ⟨m, hm⟩ : ∃ m, rest.length = m + s := ⟨rest.length - s, by omega⟩
        have h1 : m + 1 + 1 ≤ k + 1 := by omega
        have h2 : (m + 2) * s ≤ (k + 1) * s := Nat.mul_le_mul_right s (by omega)
        have h3 : m * 1 ≤ m * s := Nat.mul_le_mul_left m hs
        have h4 : (m + 2) * s = m * s + 2 * s := by ring
        omega
    rw [← hext]
    rw [show (p :: rest).length = rest.length + 1 from rfl, List.range_succ_eq_map]
    rw [List.filterMap_cons]
    have h0 : (p :: rest).get? (0 * s) = some p := by simp
    rw [h0]
    rw [List.filterMap_map]
    congr 1

/-- Fallback point for indexed access in specification statements. -/
def dfltPoint : Point :=
  { x := 0, y := 0, maX := none, sig := false, label := "" }

theorem sortSigDesc_perm (sig : List Point) : List.Perm (sortSigDesc sig) sig.enum :=
  List.perm_insertionSort sigKeyRel sig.enum

theorem sortSigDesc_sorted (sig : List Point) :
    List.Sorted sigKeyRel (sortSigDesc sig) :=
  List.sorted_insertionSort sigKeyRel sig.enum

theorem sortSigDesc_length (sig : List Point) :
    (sortSigDesc sig).length = sig.length := by
  unfold sortSigDesc
  rw [List.length_insertionSort, List.enum_length]

theorem mem_sortSigDesc_get (sig : List Point) :
    ∀ q ∈ sortSigDesc sig, sig.get? q.1 = some q.2 := by
  intro q hq
  have : q ∈ sig.enum := (sortSigDesc_perm sig).mem_iff.mp hq
  rw [List.get?_eq_getElem?]
  exact List.mem_enum_iff_getElem?.mp this

theorem keptSig_length (sig : List Point) :
    (keptSig sig).length = min sig.length 3000 := by
  unfold keptSig
  split
  · omega
  · rw [List.length_map, List.length_take, sortSigDesc_length]
    omega

theorem keptSig_subset (sig : List Point) : ∀ p ∈ keptSig sig, p ∈ sig := by
  unfold keptSig
  split
  · exact fun p hp => hp
  · intro p hp
    obtain ⟨q, hq, rfl⟩ := List.mem_map.mp hp
    have hq' : q ∈ sortSigDesc sig := List.mem_of_mem_take hq
    have : q ∈ sig.enum := (sortSigDesc_perm sig).mem_iff.mp hq'
    have := List.mem_map_of_mem Prod.snd this
    rwa [List.enum_map_snd] at this

theorem strideTake_subset {α : Type} (s : Nat) (l : List α) :
    ∀ x ∈ strideTake s l, x ∈ l := by
  induction l using strideTake.induct s with
  | case1 => intro x hx; simp [strideTake] at hx
  | case2 p rest ih =>
    intro x hx
    rw [strideTake] at hx
    rcases hx with _ | hx
    · exact List.mem_cons_self p rest
    · exact List.mem_cons_of_mem p (List.drop_subset (s - 1) rest (ih x (by assumption)))

/-- The downsampler always appends the (possibly empty) strided sample to the
kept significant points. -/
theorem downsample_eq_append (sig nonSig : List Point) :
    downsample sig nonSig = keptSig sig ++
      (strideTake (max 1 (nonSig.length / (5000 - (keptSig sig).length))) nonSig).take
        (5000 - (keptSig sig).length) := by
  unfold downsample
  have hk := keptSig_length sig
  by_cases hns : 0 < nonSig.length
  · rw [if_pos ⟨by omega, hns⟩]
  · have he : nonSig = [] := by
      cases nonSig
      · rfl
      · simp at hns
    rw [if_neg (by omega)]
    subst he
    simp [strideTake]

/-- C1: the downsampled output never exceeds 5000 points; when the
significant points number at most 3000 every one of them appears in the
output; when they number more than 3000 the output's significant points are
exactly a 3000-element selection dominating every unselected significant
point in `−log10(FDR)` (`y`), ties broken by input order; and the
non-significant part of the output is the uniform stride sample of the
non-significant points — indices `0, s, 2·s, …` with
`s = max 1 (nonSigCount / remainingCapacity)` — capped at the remaining
capacity `5000 − kept`. -/
theorem c1_downsampler (sig nonSig : List Point)
    (hs : ∀ p ∈ sig, p.sig = true) (hn : ∀ p ∈ nonSig, p.sig = false) :
    (downsample sig nonSig).length ≤ 5000
    ∧ (sig.length ≤ 3000 → ∀ p ∈ sig, p ∈ downsample sig nonSig)
    ∧ (3000 < sig.length →
      ∃ sel : List Nat, sel.Nodup ∧ sel.length = 3000 ∧ (∀ i ∈ sel, i < sig.length) ∧
        (downsample sig nonSig).filter (fun p => p.sig) =
          sel.map (fun i => (sig.get? i).getD dfltPoint) ∧
        ∀ i ∈ sel, ∀ j, j < sig.length → j ∉ sel →
          ((sig.get? j).getD dfltPoint).y < ((sig.get? i).getD dfltPoint).y ∨
          (((sig.get? j).getD dfltPoint).y = ((sig.get? i).getD dfltPoint).y ∧ i < j))
    ∧ (downsample sig nonSig).filter (fun p => !p.sig) =
      ((List.range nonSig.length).filterMap
        (fun k => nonSig.get? (k * max 1 (nonSig.length / (5000 - min sig.length 3000))))).take
        (5000 - min sig.length 3000) := by
  have hkmem := keptSig_subset sig
  have hklen := keptSig_length sig
  have happ := downsample_eq_append sig nonSig
  have hstride_mem : ∀ p ∈ (strideTake (max 1 (nonSig.length / (5000 - (keptSig sig).length)))
      nonSig).take (5000 - (keptSig sig).length), p ∈ nonSig :=
    fun p hp => strideTake_subset _ _ p (List.mem_of_mem_take hp)
  refine ⟨?_, ?_, ?_, ?_⟩
  · rw [happ, List.length_append]
    have h2 : ((strideTake (max 1 (nonSig.length / (5000 - (keptSig sig).length)))
        nonSig).take (5000 - (keptSig sig).length)).length ≤
        5000 - (keptSig sig).length := by
      rw [List.length_take]
      omega
    omega
  · intro hle p hp
    rw [happ]
    apply List.mem_append_left
    unfold keptSig
    rw [if_pos hle]
    exact hp
  · intro hgt
    have hk_eq : keptSig sig = ((sortSigDesc sig).take 3000).map Prod.snd := by
      unfold keptSig
      rw [if_neg (by omega)]
    have hfil : (downsample sig nonSig).filter (fun p => p.sig) = keptSig sig := by
      rw [happ, List.filter_append]
      have e1 : (keptSig sig).filter (fun p => p.sig) = keptSig sig := by
        rw [List.filter_eq_self]
        intro p hp
        simp [hs p (hkmem p hp)]
      have e2 : ((strideTake (max 1 (nonSig.length / (5000 - (keptSig sig).length)))
          nonSig).take (5000 - (keptSig sig).length)).filter (fun p => p.sig) = [] := by
        rw [List.filter_eq_nil_iff]
        intro p hp
        simp [hn p (hstride_mem p hp)]
      rw [e1, e2, List.append_nil]
    refine ⟨((sortSigDesc sig).take 3000).map Prod.fst, ?_, ?_, ?_, ?_, ?_⟩
    · have hperm := (sortSigDesc_perm sig).map Prod.fst
      have hnd : ((sortSigDesc sig).map Prod.fst).Nodup := by
        rw [hperm.nodup_iff, List.enum_map_fst]
        exact List.nodup_range _
      exact hnd.sublist ((List.take_sublist 3000 (sortSigDesc sig)).map Prod.fst)
    · rw [List.length_map, List.length_take, sortSigDesc_length]
      omega
    · intro i hi
      obtain ⟨q, hq, rfl⟩ := List.mem_map.mp hi
      have hq' : q ∈ sortSigDesc sig := List.mem_of_mem_take hq
      have hmem := List.mem_map_of_mem Prod.fst ((sortSigDesc_perm sig).mem_iff.mp hq')
      rw [List.enum_map_fst] at hmem
      exact List.mem_range.mp hmem
    · rw [hfil, hk_eq, List.map_map]
      apply List.map_congr_left
      intro q hq
      have hget := mem_sortSigDesc_get sig q (List.mem_of_mem_take hq)
      show q.2 = (sig.get? q.1).getD dfltPoint
      rw [hget]
      rfl
    · intro i hi j hjlen hjn
      obtain ⟨q, hqtake, hqi⟩ := List.mem_map.mp hi
      have hpj : sig[j]? = some ((sig.get? j).getD dfltPoint) := by
        rw [List.get?_eq_getElem?, List.getElem?_eq_getElem hjlen]
        rfl
      have hjq : (j, (sig.get? j).getD dfltPoint) ∈ sig.enum :=
        List.mem_enum_iff_getElem?.mpr hpj
      have hjsrt : (j, (sig.get? j).getD dfltPoint) ∈ sortSigDesc sig :=
        (sortSigDesc_perm sig).mem_iff.mpr hjq
      have hjdrop : (j, (sig.get? j).getD dfltPoint) ∈ (sortSigDesc sig).drop 3000 := by
        have hsplit : (j, (sig.get? j).getD dfltPoint) ∈
            (sortSigDesc sig).take 3000 ++ (sortSigDesc sig).drop 3000 := by
          rw [List.take_append_drop]
          exact hjsrt
        rcases List.mem_append.mp hsplit with hin | hin
        · exact absurd (List.mem_map_of_mem Prod.fst hin) hjn
        · exact hin
      have hrel := (sortSigDesc_sorted sig).rel_of_mem_take_of_mem_drop hqtake hjdrop
      have hqget := mem_sortSigDesc_get sig q (List.mem_of_mem_take hqtake)
      have hpi : (sig.get? i).getD dfltPoint = q.2 := by
        rw [← hqi, hqget]
        rfl
      rcases hrel with hlt | ⟨heq, hle⟩
      · left
        rw [hpi]
        exact hlt
      · right
        refine ⟨by rw [hpi]; exact heq.symm, ?_⟩
        have hij : i ≠ j := fun e => hjn (e ▸ hi)
        omega
  · rw [happ, List.filter_append]
    have e1 : (keptSig sig).filter (fun p => !p.sig) = [] := by
      rw [List.filter_eq_nil_iff]
      intro p hp
      simp [hs p (hkmem p hp)]
    have e2 : ((strideTake (max 1 (nonSig.length / (5000 - (keptSig sig).length)))
        nonSig).take (5000 - (keptSig sig).length)).filter (fun p => !p.sig) =
        ((strideTake (max 1 (nonSig.length / (5000 - (keptSig sig).length)))
          nonSig).take (5000 - (keptSig sig).length)) := by
      rw [List.filter_eq_self]
      intro p hp
      simp [hn p (hstride_mem p hp)]
    rw [e1, e2, List.nil_append, hklen,
      strideTake_eq _ (le_max_left 1 (nonSig.length / (5000 - min sig.length 3000)))]

/-- Witness for C1 at a one-point input: the single significant point appears
in the output and the output is within bounds. -/
theorem c1_downsampler_witness :
    (downsample [{ dfltPoint with sig := true }] [dfltPoint]).length ≤ 5000 ∧
    ({ dfltPoint with sig := true } : Point) ∈
      downsample [{ dfltPoint with sig := true }] [dfltPoint] := by
  have h := c1_downsampler [{ dfltPoint with sig := true }] [dfltPoint]
    (by intro p hp; rw [List.mem_singleton] at hp; subst hp; rfl)
    (by intro p hp; rw [List.mem_singleton] at hp; subst hp; rfl)
  exact ⟨h.1, h.2.1 (by decide) _ (List.mem_singleton_self _)⟩

/-! ### C7 / C8: the upload pipeline -/

/-- The `try` body error/result depends on the session state only through
`data`; two states with equal data give equal thrown messages or
data-equal results. -/
theorem tryProcess_data (env : JsEnv) (st1 st2 : AppState) (hd : st1.data = st2.data)
    (f : UploadFile) (kind : FileKind) (compId : Option String) :
    (match tryProcess env st1 f kind compId, tryProcess env st2 f kind compId with
     | .ok a, .ok b => a.data = b.data
     | .error m1, .error m2 => m1 = m2
     | _, _ => False) := by
  unfold tryProcess
  by_cases hc : (isComparisonKind kind && compId.isNone) = true
  · simp [hc]
  · simp only [hc, Bool.false_eq_true, if_false]
    cases kind <;> rcases compId with _ | cid <;> simp_all [hd]

/-- One loop iteration's effect on the dataset is independent of the id
stream, the file position, and every state component other than `data`. -/
theorem processFile_data (env : JsEnv) (r1 r2 : Nat → String) (st1 st2 : AppState)
    (hd : st1.data = st2.data) (i1 i2 : Nat) (f : UploadFile) :
    (processFile env r1 st1 i1 f).data = (processFile env r2 st2 i2 f).data := by
  unfold processFile
  by_cases h1 : detectFileType f.name = FileKind.unknown
  · simp only [h1, if_pos]
    simp [markById, hd]
  · by_cases h2 : detectFileType f.name = FileKind.deliverable_only
    · simp only [if_neg h1, if_pos h2]
      simp [markById, hd]
    · simp only [if_neg h1, if_neg h2]
      have hrel := tryProcess_data env
        { st1 with uploadStatus := st1.uploadStatus ++
            [{ id := r1 i1, name := f.name, kind := detectFileType f.name,
               assignedTo := detectComparisonId f.name, status := .pending,
               message := none }] }
        { st2 with uploadStatus := st2.uploadStatus ++
            [{ id := r2 i2, name := f.name, kind := detectFileType f.name,
               assignedTo := detectComparisonId f.name, status := .pending,
               message := none }] }
        hd f (detectFileType f.name) (detectComparisonId f.name)
      rcases e1 : tryProcess env
          { st1 with uploadStatus := st1.uploadStatus ++
              [{ id := r1 i1, name := f.name, kind := detectFileType f.name,
                 assignedTo := detectComparisonId f.name, status := .pending,
                 message := none }] } f (detectFileType f.name) (detectComparisonId f.name)
        with m1 | a <;>
      rcases e2 : tryProcess env
          { st2 with uploadStatus := st2.uploadStatus ++
              [{ id := r2 i2, name := f.name, kind := detectFileType f.name,
                 assignedTo := detectComparisonId f.name, status := .pending,
                 message := none }] } f (detectFileType f.name) (detectComparisonId f.name)
        with m2 | b
      all_goals rw [e1, e2] at hrel
      · simp [e1, e2, markById, hd]
      · exact absurd hrel (by simp)
      · exact absurd hrel (by simp)
      · simp [e1, e2, markById, hrel]

/-- Folding the loop over equal file lists (positions and id stream may
differ) from data-equal states yields data-equal states. -/
theorem foldl_data_eq (env : JsEnv) (r1 r2 : Nat → String) :
    ∀ (l1 l2 : List (Nat × UploadFile)), l1.map Prod.snd = l2.map Prod.snd →
      ∀ (st1 st2 : AppState), st1.data = st2.data →
      (l1.foldl (fun st p => processFile env r1 st p.1 p.2) st1).data =
        (l2.foldl (fun st p => processFile env r2 st p.1 p.2) st2).data := by
  intro l1
  induction l1 with
  | nil =>
    intro l2 hmap st1 st2 hd
    cases l2 with
    | nil => simpa using hd
    | cons q l2 => simp at hmap
  | cons p l1 ih =>
    intro l2 hmap st1 st2 hd
    cases l2 with
    | nil => simp at hmap
    | cons q l2 =>
      simp only [List.map_cons, List.cons.injEq] at hmap
      obtain ⟨hpq, hrest⟩ := hmap
      simp only [List.foldl_cons]
      refine ih l2 hrest _ _ ?_
      rw [← hpq]
      exact processFile_data env r1 r2 st1 st2 hd p.1 q.1 p.2

/-- C8: re-running the pipeline on an unchanged file set yields bit-identical
output datasets.  The only run-to-run variation in the pipeline is the
`Math.random()` id stream (the host conversions are fixed functions), and
every one of the five output datasets is independent of it. -/
theorem c8_rerun_deterministic (env : JsEnv) (r1 r2 : Nat → String)
    (files : List UploadFile) :
    (processBatch env r1 files).data.dataStatsTable =
      (processBatch env r2 files).data.dataStatsTable
    ∧ (processBatch env r1 files).data.mappingStatsTable =
      (processBatch env r2 files).data.mappingStatsTable
    ∧ (processBatch env r1 files).data.transcriptStats =
      (processBatch env r2 files).data.transcriptStats
    ∧ (processBatch env r1 files).data.dgeSummaryTable =
      (processBatch env r2 files).data.dgeSummaryTable
    ∧ (processBatch env r1 files).data.comparisons =
      (processBatch env r2 files).data.comparisons := by
  have h : (processBatch env r1 files).data = (processBatch env r2 files).data :=
    foldl_data_eq env r1 r2 files.enum files.enum rfl initialAppState initialAppState rfl
  rw [h]
  exact ⟨rfl, rfl, rfl, rfl, rfl⟩

/-- The per-file upload status (everything except the random id), as a pure
function of the file: the loop's status outcome depends on nothing else. -/
def statusCoreOf (f : UploadFile) : FileStatus :=
  let kind := detectFileType f.name
  let compId := detectComparisonId f.name
  if kind = .unknown then
    { id := "", name := f.name, kind := .deliverable_only, assignedTo := compId,
      status := .success, message := some "Type unknown, added to tree only" }
  else if kind = .deliverable_only then
    { id := "", name := f.name, kind := kind, assignedTo := compId,
      status := .success, message := none }
  else if isComparisonKind kind && compId.isNone then
    { id := "", name := f.name, kind := kind, assignedTo := compId,
      status := .error, message := some (missingIdMessage kind) }
  else
    { id := "", name := f.name, kind := kind, assignedTo := compId,
      status := .success, message := none }

theorem tryProcess_ok (env : JsEnv) (st : AppState) (f : UploadFile)
    (kind : FileKind) (compId : Option String)
    (h1 : kind ≠ FileKind.unknown) (h2 : kind ≠ FileKind.deliverable_only)
    (h3 : ¬(isComparisonKind kind && compId.isNone) = true) :
    ∃ st', tryProcess env st f kind compId = .ok st' := by
  unfold tryProcess
  rw [if_neg h3]
  cases kind <;> rcases compId with _ | cid <;>
    first
      | exact ⟨_, rfl⟩
      | simp_all [isComparisonKind]

theorem tryProcess_ok_uploadStatus (env : JsEnv) (st : AppState) (f : UploadFile)
    (kind : FileKind) (compId : Option String) (st' : AppState)
    (h : tryProcess env st f kind compId = .ok st') :
    st'.uploadStatus = st.uploadStatus := by
  unfold tryProcess at h
  by_cases hc : (isComparisonKind kind && compId.isNone) = true
  · rw [if_pos hc] at h
    cases h
  · rw [if_neg hc] at h
    cases kind <;> rcases compId with _ | cid <;> cases h <;> rfl

theorem tryProcess_error (env : JsEnv) (st : AppState) (f : UploadFile)
    (kind : FileKind) (compId : Option String) (m : String)
    (h : tryProcess env st f kind compId = .error m)
    (h1 : kind ≠ FileKind.unknown) (h2 : kind ≠ FileKind.deliverable_only) :
    (isComparisonKind kind && compId.isNone) = true ∧ m = missingIdMessage kind := by
  by_cases hc : (isComparisonKind kind && compId.isNone) = true
  · refine ⟨hc, ?_⟩
    unfold tryProcess at h
    rw [if_pos hc] at h
    injection h with h'
    rw [h']
  · exfalso
    obtain ⟨st', hok⟩ := tryProcess_ok env st f kind compId h1 h2 hc
    rw [hok] at h
    cases h

theorem markById_append_fresh (l : List FileStatus) (s : FileStatus) (fid : String)
    (g : FileStatus → FileStatus) (hfresh : ∀ x ∈ l, x.id ≠ fid) (hs : s.id = fid) :
    markById (l ++ [s]) fid g = l ++ [g s] := by
  unfold markById
  rw [List.map_append]
  congr 1
  · have e : ∀ x ∈ l, (if x.id = fid then g x else x) = x :=
      fun x hx => if_neg (hfresh x hx)
    rw [List.map_congr_left e]
    exact List.map_id' l
  · simp [hs]

/-- One loop iteration appends exactly the file's status, stamped with the
fresh id. -/
theorem processFile_status (env : JsEnv) (rnd : Nat → String) (st : AppState)
    (idx : Nat) (f : UploadFile)
    (hfresh : ∀ x ∈ st.uploadStatus, x.id ≠ rnd idx) :
    (processFile env rnd st idx f).uploadStatus =
      st.uploadStatus ++ [{ statusCoreOf f with id := rnd idx }] := by
  unfold processFile statusCoreOf
  by_cases h1 : detectFileType f.name = FileKind.unknown
  · rw [if_pos h1, if_pos h1]
    show markById (st.uploadStatus ++ [_]) (rnd idx) _ = _
    rw [markById_append_fresh _ _ _ _ hfresh rfl]
  · rw [if_neg h1, if_neg h1]
    by_cases h2 : detectFileType f.name = FileKind.deliverable_only
    · rw [if_pos h2, if_pos h2]
      show markById (st.uploadStatus ++ [_]) (rnd idx) _ = _
      rw [markById_append_fresh _ _ _ _ hfresh rfl]
    · rw [if_neg h2]
      rcases e : tryProcess env
          { st with uploadStatus := st.uploadStatus ++
              [{ id := rnd idx, name := f.name, kind := detectFileType f.name,
                 assignedTo := detectComparisonId f.name, status := .pending,
                 message := none }] } f (detectFileType f.name) (detectComparisonId f.name)
        with m | st'
      · obtain ⟨hc, hm⟩ := tryProcess_error _ _ _ _ _ _ e h1 h2
        rw [if_pos hc]
        show markById (st.uploadStatus ++ [_]) (rnd idx) _ = _
        rw [markById_append_fresh _ _ _ _ hfresh rfl, hm]
        simp [h2, hc]
      · have hc : ¬(isComparisonKind (detectFileType f.name) &&
            (detectComparisonId f.name).isNone) = true := by
          intro hcc
          unfold tryProcess at e
          rw [if_pos hcc] at e
          cases e
        rw [if_neg hc]
        have hus := tryProcess_ok_uploadStatus _ _ _ _ _ _ e
        show markById st'.uploadStatus (rnd idx) _ = _
        rw [hus]
        rw [markById_append_fresh _ _ _ _ hfresh rfl]
        simp [h2, hc]

/-- Folding the loop over index–file pairs with fresh, mutually distinct ids
appends each file's status in order. -/
theorem foldl_status (env : JsEnv) (rnd : Nat → String) :
    ∀ (l : List (Nat × UploadFile)) (st : AppState),
      (∀ x ∈ st.uploadStatus, ∀ p ∈ l, x.id ≠ rnd p.1) →
      (l.map (fun p => rnd p.1)).Nodup →
      (l.foldl (fun st p => processFile env rnd st p.1 p.2) st).uploadStatus =
        st.uploadStatus ++ l.map (fun p => { statusCoreOf p.2 with id := rnd p.1 }) := by
  intro l
  induction l with
  | nil => intro st _ _; simp
  | cons p l ih =>
    intro st hfresh hnd
    simp only [List.foldl_cons, List.map_cons]
    have hstep := processFile_status env rnd st p.1 p.2
      (fun x hx => hfresh x hx p (List.mem_cons_self p l))
    rw [List.map_cons, List.nodup_cons] at hnd
    have hfresh' : ∀ x ∈ (processFile env rnd st p.1 p.2).uploadStatus,
        ∀ q ∈ l, x.id ≠ rnd q.1 := by
      intro x hx q hq
      rw [hstep] at hx
      rcases List.mem_append.mp hx with hx | hx
      · exact hfresh x hx q (List.mem_cons_of_mem p hq)
      · rw [List.mem_singleton] at hx
        subst hx
        show rnd p.1 ≠ rnd q.1
        intro e
        exact hnd.1 (e ▸ List.mem_map_of_mem (fun p => rnd p.1) hq)
    rw [ih (processFile env rnd st p.1 p.2) hfresh' hnd.2, hstep,
      List.append_assoc, List.singleton_append]

/-- The batch's upload-status list is the per-file status of each file, in
input order, stamped with its id. -/
theorem processBatch_status (env : JsEnv) (rnd : Nat → String)
    (hinj : Function.Injective rnd) (files : List UploadFile) :
    (processBatch env rnd files).uploadStatus =
      files.enum.map (fun p => { statusCoreOf p.2 with id := rnd p.1 }) := by
  unfold processBatch initialAppState
  rw [foldl_status env rnd files.enum _ (by intro x hx; cases hx) ?_]
  · rw [List.nil_append]
  · have e : files.enum.map (fun p => rnd p.1) =
        (List.range files.length).map rnd := by
      rw [show (fun p : Nat × UploadFile => rnd p.1) =
        (rnd ∘ Prod.fst) from rfl, ← List.map_map, List.enum_map_fst]
    rw [e]
    exact (List.nodup_range files.length).map hinj

/-- A comparison-kind file without a group id leaves the dataset untouched:
both throws happen before any state update. -/
theorem processFile_data_of_bad (env : JsEnv) (rnd : Nat → String) (st : AppState)
    (idx : Nat) (f : UploadFile)
    (hkind : isComparisonKind (detectFileType f.name) = true)
    (hid : detectComparisonId f.name = none) :
    (processFile env rnd st idx f).data = st.data := by
  have h1 : detectFileType f.name ≠ FileKind.unknown := by
    intro e
    rw [e] at hkind
    simp [isComparisonKind] at hkind
  have h2 : detectFileType f.name ≠ FileKind.deliverable_only := by
    intro e
    rw [e] at hkind
    simp [isComparisonKind] at hkind
  unfold processFile
  rw [if_neg h1, if_neg h2]
  have herr : tryProcess env
      { st with uploadStatus := st.uploadStatus ++
          [{ id := rnd idx, name := f.name, kind := detectFileType f.name,
             assignedTo := detectComparisonId f.name, status := .pending,
             message := none }] } f (detectFileType f.name) (detectComparisonId f.name) =
      .error (missingIdMessage (detectFileType f.name)) := by
    unfold tryProcess
    rw [if_pos (by rw [hid]; simp [hkind])]
  rw [herr]

/-- C7: a `comparison_*` file whose filename yields no group id is reported —
not dropped — with an error status carrying the missing-id message, and the
processing of every other file in the batch is unaffected: the per-file
statuses are a pure function of each file alone, and the final dataset equals
that of the batch with the offending file removed. -/
theorem c7_error_isolation (env : JsEnv) (rnd : Nat → String)
    (hinj : Function.Injective rnd) (l1 l2 : List UploadFile) (f : UploadFile)
    (hkind : isComparisonKind (detectFileType f.name) = true)
    (hid : detectComparisonId f.name = none) :
    (statusCoreOf f).status = StatusTag.error
    ∧ (statusCoreOf f).message = some (missingIdMessage (detectFileType f.name))
    ∧ (processBatch env rnd (l1 ++ f :: l2)).uploadStatus =
      ((l1 ++ f :: l2).enum).map (fun p => { statusCoreOf p.2 with id := rnd p.1 })
    ∧ (processBatch env rnd (l1 ++ f :: l2)).data =
      (processBatch env rnd (l1 ++ l2)).data := by
  have h1 : detectFileType f.name ≠ FileKind.unknown := by
    intro e
    rw [e] at hkind
    simp [isComparisonKind] at hkind
  have h2 : detectFileType f.name ≠ FileKind.deliverable_only := by
    intro e
    rw [e] at hkind
    simp [isComparisonKind] at hkind
  have hcore : statusCoreOf f =
      { id := "", name := f.name, kind := detectFileType f.name,
        assignedTo := detectComparisonId f.name, status := .error,
        message := some (missingIdMessage (detectFileType f.name)) } := by
    unfold statusCoreOf
    rw [if_neg h1, if_neg h2, if_pos (by rw [hid]; simp [hkind])]
  refine ⟨by rw [hcore], by rw [hcore], processBatch_status env rnd hinj _, ?_⟩
  unfold processBatch
  rw [List.enum_append, List.enum_append, List.foldl_append, List.foldl_append]
  have hmid : ∀ (st : AppState),
      ((List.enumFrom l1.length (f :: l2)).foldl
        (fun st p => processFile env rnd st p.1 p.2) st).data =
      ((List.enumFrom l1.length l2).foldl
        (fun st p => processFile env rnd st p.1 p.2) st).data := by
    intro st
    rw [List.enumFrom_cons, List.foldl_cons]
    have hbad := processFile_data_of_bad env rnd st l1.length f hkind hid
    have := foldl_data_eq env rnd rnd
      (List.enumFrom (l1.length + 1) l2) (List.enumFrom l1.length l2)
      (by rw [List.enumFrom_map_snd, List.enumFrom_map_snd])
      (processFile env rnd st l1.length f)
      st ?_
    · exact this
    · exact hbad
  exact hmid _

/-- Witness for C7 at a concrete batch: a GO-enrichment file with no group id
in its name gets an error status, and processing it changes no dataset. -/
theorem c7_error_isolation_witness :
    (statusCoreOf { name := "GO_enrichment.xlsx", sheet := none, text := "" }).status =
      StatusTag.error ∧
    (processBatch nullJsEnv (fun n => String.mk (List.replicate n 'a'))
        ([] ++ { name := "GO_enrichment.xlsx", sheet := none, text := "" } :: [])).data =
      (processBatch nullJsEnv (fun n => String.mk (List.replicate n 'a')) ([] ++ [])).data := by
  have hinj : Function.Injective (fun n => String.mk (List.replicate n 'a')) := by
    intro a b h
    have := congrArg (fun s => s.data.length) h
    simpa using this
  have h := c7_error_isolation nullJsEnv (fun n => String.mk (List.replicate n 'a'))
    hinj [] [] { name := "GO_enrichment.xlsx", sheet := none, text := "" }
    (by decide) (by decide)
  exact ⟨h.1, h.2.2.2⟩
